import Mathlib

/-!
Verification of the temporal causal simulation engine of `aeon-gateway`
(`src/temporal_model.py`, class `TemporalModelEngine`), shallowly embedded
in Lean 4.

Modelling conventions:
* Python floats are modelled as `ℚ` (exact arithmetic; the claims under
  study do not hinge on IEEE-754 rounding).
* Python dicts are modelled as association lists with insert-or-replace
  semantics, which also preserves Python 3.7+ insertion-order iteration.
* `numpy.random.Generator.normal(0, sigma, n)` draws are modelled by an
  explicit stream `ℕ → ℚ` of standard-normal samples together with a
  counter: the vector drawn is `sigma * stream[counter + i]` for
  `i < n`, after which the counter advances by `n`.  The stream is the
  deterministic function of the seed realised by
  `np.random.default_rng(seed)`; two engines built from the same seed
  share the same stream.
* `networkx.DiGraph` is modelled by insertion-ordered node and edge
  association lists; `add_edge` on an existing `(source, target)` pair
  replaces that edge's attributes in place (a `DiGraph` holds at most one
  edge per ordered pair), and auto-inserts missing endpoint nodes without
  a `type` attribute (modelled as type `""`).
-/

namespace Aeon

/-- Python dict lookup `m.get(k)` on an insertion-ordered association list. -/
def dictGet? {α : Type} (m : List (String × α)) (k : String) : Option α :=
  match m with
  | [] => none
  | (k', v) :: rest => if k' = k then some v else dictGet? rest k

/-- Python dict lookup with default, `m.get(k, d)`. -/
def dictGetD {α : Type} (m : List (String × α)) (k : String) (d : α) : α :=
  (dictGet? m k).getD d

/-- Python dict assignment `m[k] = v`: replaces the value in place if the key
is present (keeping its position in iteration order), appends otherwise. -/
def dictSet {α : Type} (m : List (String × α)) (k : String) (v : α) :
    List (String × α) :=
  match m with
  | [] => [(k, v)]
  | (k', v') :: rest =>
      if k' = k then (k, v) :: rest else (k', v') :: dictSet rest k v

/-- Membership test `k in m` for a Python dict. -/
def dictMem {α : Type} (m : List (String × α)) (k : String) : Bool :=
  (dictGet? m k).isSome

theorem dictGet?_dictSet_self {α : Type} (m : List (String × α)) (k : String)
    (v : α) : dictGet? (dictSet m k v) k = some v := by
  induction m with
  | nil => simp [dictSet, dictGet?]
  | cons p rest ih =>
      by_cases hp : p.1 = k
      · simp [dictSet, hp, dictGet?]
      · simp [dictSet, hp, dictGet?, ih]

theorem dictGet?_dictSet_ne {α : Type} (m : List (String × α)) (k k' : String)
    (v : α) (h : k' ≠ k) : dictGet? (dictSet m k v) k' = dictGet? m k' := by
  have hkk : ¬(k = k') := fun he => h he.symm
  induction m with
  | nil =>
      simp only [dictSet, dictGet?]
      rw [if_neg hkk]
  | cons p rest ih =>
      rcases p with ⟨k1, v1⟩
      by_cases hp : k1 = k
      · subst hp
        simp only [dictSet, if_pos rfl, dictGet?]
        rw [if_neg hkk, if_neg hkk]
      · simp only [dictSet, if_neg hp, dictGet?]
        by_cases hpk : k1 = k'
        · rw [if_pos hpk, if_pos hpk]
        · rw [if_neg hpk, if_neg hpk]
          exact ih

/-- `CausalNode` (src/models/gateway.py): id, type tag, label, grounding. -/
structure CausalNode where
  id : String
  type : String
  label : String
  grounding : List (String × String)
deriving DecidableEq

/-- `CausalEdge` (src/models/gateway.py): directed weighted lagged edge.
`evidence` is opaque to the simulation and modelled as a key-value list. -/
structure CausalEdge where
  source : String
  target : String
  relationship : String
  evidence : List (String × String)
  effect_size : ℚ
  temporal_lag_hours : ℤ
deriving DecidableEq

/-- A genetic-modifier rule: a plain Python dict in the source, so every
field access goes through `dict.get` and may be absent (`none`). -/
structure GeneticModifier where
  affects_edge : Option String
  gene : Option String
  variant : Option String
  multiplier : Option ℚ
deriving DecidableEq

/-- `CausalGraph` (src/models/gateway.py). -/
structure CausalGraph where
  nodes : List CausalNode
  edges : List CausalEdge
  genetic_modifiers : List GeneticModifier
deriving DecidableEq

/-- Node attributes stored in the networkx graph by `build_model`.
A node auto-created by `add_edge` (dangling edge endpoint) carries no
`type`/`label` keys; that state is modelled by empty strings, which match
no type branch of the simulation (in Python a later attribute read on such
a node would raise `KeyError`; no claim below exercises that path). -/
structure NodeAttrs where
  type : String
  label : String
  grounding : List (String × String)
deriving DecidableEq

/-- Edge attributes stored in the networkx graph by `build_model`. -/
structure EdgeAttrs where
  effect_size : ℚ
  temporal_lag_hours : ℤ
  relationship : String
  evidence : List (String × String)
deriving DecidableEq

/-- A stored edge: (source, target, attributes). -/
structure GEdge where
  source : String
  target : String
  attrs : EdgeAttrs
deriving DecidableEq

/-- Insertion-ordered model of `networkx.DiGraph` plus the
`G.graph['baseline_biomarkers']` attachment made by `build_model`. -/
structure Model where
  nodes : List (String × NodeAttrs)
  edges : List GEdge
  baseline_biomarkers : List (String × ℚ)
deriving DecidableEq

/-- `G.add_node(id, **attrs)`: insert or overwrite attributes in place. -/
def addNode (m : Model) (id : String) (a : NodeAttrs) : Model :=
  { m with nodes := dictSet m.nodes id a }

/-- Replace the attributes of the stored `(s, t)` edge in place if present,
else append a new edge: `DiGraph` keeps at most one edge per ordered pair. -/
def setEdge (es : List GEdge) (s t : String) (a : EdgeAttrs) : List GEdge :=
  match es with
  | [] => [⟨s, t, a⟩]
  | e :: rest =>
      if e.source = s ∧ e.target = t then ⟨s, t, a⟩ :: rest
      else e :: setEdge rest s t a

/-- `G.add_edge(s, t, **attrs)`: auto-insert missing endpoint nodes
(without a `type` attribute), then store/overwrite the edge. -/
def addEdge (m : Model) (s t : String) (a : EdgeAttrs) : Model :=
  let m1 := if dictMem m.nodes s then m
            else { m with nodes := dictSet m.nodes s ⟨"", "", []⟩ }
  let m2 := if dictMem m1.nodes t then m1
            else { m1 with nodes := dictSet m1.nodes t ⟨"", "", []⟩ }
  { m2 with edges := setEdge m2.edges s t a }

/-- `TemporalModelEngine._apply_genetic_modifier`: scan the rules in order;
each rule whose `affects_edge` equals `"source->target"` and whose gene is
present in the user's genetics with exactly the rule's variant string
multiplies the running effect size by the rule's multiplier (default 1.0). -/
def applyGeneticModifier (base_effect : ℚ) (source target : String)
    (user_genetics : List (String × String))
    (genetic_modifiers : List GeneticModifier) : ℚ :=
  genetic_modifiers.foldl (fun acc m =>
    if m.affects_edge = some (source ++ "->" ++ target) then
      match m.gene with
      | none => acc
      | some g =>
          match dictGet? user_genetics g with
          | none => acc
          | some v =>
              if m.variant = some v then acc * (m.multiplier.getD 1) else acc
    else acc) base_effect

/-- `TemporalModelEngine.build_model`: add all nodes with their metadata,
then add all edges carrying the genetics-modified effect size, the original
relationship tag, the temporal lag and the evidence; finally attach the
baseline-biomarker mapping to the graph. -/
def buildModel (cg : CausalGraph) (user_genetics : List (String × String))
    (baseline_biomarkers : List (String × ℚ)) : Model :=
  let g0 : Model := ⟨[], [], []⟩
  let g1 := cg.nodes.foldl
    (fun g n => addNode g n.id ⟨n.type, n.label, n.grounding⟩) g0
  let g2 := cg.edges.foldl (fun g e =>
    addEdge g e.source e.target
      ⟨applyGeneticModifier e.effect_size e.source e.target user_genetics
          cg.genetic_modifiers,
        e.temporal_lag_hours, e.relationship, e.evidence⟩) g1
  { g2 with baseline_biomarkers := baseline_biomarkers }

/-- Does a modifier rule fire for edge `source->target` under these user
genetics?  (The conjunction tested by `_apply_genetic_modifier`.) -/
def modifierMatches (source target : String)
    (user_genetics : List (String × String)) (m : GeneticModifier) : Bool :=
  (m.affects_edge == some (source ++ "->" ++ target)) &&
    (match m.gene with
     | none => false
     | some g =>
         match dictGet? user_genetics g with
         | none => false
         | some v => m.variant == some v)

/-- Product of the multipliers of the matching rules, in encounter order. -/
def matchingMultiplierProduct (source target : String)
    (user_genetics : List (String × String))
    (genetic_modifiers : List GeneticModifier) : ℚ :=
  ((genetic_modifiers.filter (modifierMatches source target user_genetics)).map
    (fun m => m.multiplier.getD 1)).prod

theorem matchingMultiplierProduct_cons (s t : String)
    (gen : List (String × String)) (m : GeneticModifier)
    (rest : List GeneticModifier) :
    matchingMultiplierProduct s t gen (m :: rest) =
      (if modifierMatches s t gen m then m.multiplier.getD 1 else 1) *
        matchingMultiplierProduct s t gen rest := by
  simp only [matchingMultiplierProduct, List.filter_cons]
  split <;> simp_all

theorem applyGeneticModifier_cons (base_effect : ℚ) (source target : String)
    (gen : List (String × String)) (m : GeneticModifier)
    (rest : List GeneticModifier) :
    applyGeneticModifier base_effect source target gen (m :: rest) =
      applyGeneticModifier
        (if modifierMatches source target gen m then
          base_effect * m.multiplier.getD 1
        else base_effect) source target gen rest := by
  show List.foldl _ _ _ = _
  rw [List.foldl_cons]
  congr 1
  by_cases hedge : m.affects_edge = some (source ++ "->" ++ target)
  · cases hg : m.gene with
    | none => simp [hedge, hg, modifierMatches]
    | some g =>
        cases hv : dictGet? gen g with
        | none => simp [hedge, hg, hv, modifierMatches]
        | some v =>
            by_cases hvar : m.variant = some v
            · simp [hedge, hg, hv, hvar, modifierMatches]
            · simp [hedge, hg, hv, hvar, modifierMatches]
  · simp [hedge, modifierMatches]

theorem applyGeneticModifier_eq_mul (base_effect : ℚ) (source target : String)
    (gen : List (String × String)) (mods : List GeneticModifier) :
    applyGeneticModifier base_effect source target gen mods =
      base_effect * matchingMultiplierProduct source target gen mods := by
  induction mods generalizing base_effect with
  | nil => simp [applyGeneticModifier, matchingMultiplierProduct]
  | cons m rest ih =>
      rw [applyGeneticModifier_cons, matchingMultiplierProduct_cons, ih]
      by_cases hm : modifierMatches source target gen m
      · simp only [hm, if_true]
        ring
      · simp only [hm, Bool.false_eq_true, if_false]
        ring

/-- The seeded pseudo-random stream of `np.random.default_rng(seed)`:
`stream i` is the `i`-th standard-normal sample the generator would emit,
and `counter` is how many samples have been consumed so far. -/
structure Rng where
  stream : ℕ → ℚ
  counter : ℕ

/-- `rng.normal(0, sigma, n)`: a vector of `n` draws scaled by `sigma`,
consuming `n` samples from the stream. -/
def normalDraw (rng : Rng) (sigma : ℚ) (n : ℕ) : List ℚ × Rng :=
  ((List.range n).map (fun i => sigma * rng.stream (rng.counter + i)),
    ⟨rng.stream, rng.counter + n⟩)

/-- `TemporalModelEngine` instance state: `n_simulations` and the rng.
Construction with a seed yields `⟨n, ⟨streamOfSeed, 0⟩⟩`; the stream is
the deterministic function of the seed. -/
structure Engine where
  n_simulations : ℕ
  rng : Rng

/-- `TemporalModelEngine.__init__(n_simulations, random_seed)`: the seed
fixes the stream; the counter starts at zero. -/
def mkEngine (n_simulations : ℕ) (streamOfSeed : ℕ → ℚ) : Engine :=
  ⟨n_simulations, ⟨streamOfSeed, 0⟩⟩

/-- `model.nodes[id]['type']`, with `""` standing for a missing attribute
(auto-added endpoint) or missing node (Python `KeyError`; unexercised). -/
def nodeTypeOf (m : Model) (id : String) : String :=
  ((dictGet? m.nodes id).map NodeAttrs.type).getD ""

/-- The biomarker-typed node ids in insertion order:
`[n for n, d in model.nodes(data=True) if d['type'] == 'biomarker']`. -/
def biomarkerNodes (m : Model) : List String :=
  (m.nodes.filter (fun p => p.2.type = "biomarker")).map Prod.fst

/-- `model.in_edges(node, data=True)` in networkx iteration order (the
order in which each source was first linked to this target). -/
def inEdges (m : Model) (node : String) : List GEdge :=
  m.edges.filter (fun e => e.target = node)

/-- Successors `G.neighbors(node)` in adjacency insertion order. -/
def successors (m : Model) (node : String) : List String :=
  (m.edges.filter (fun e => e.source = node)).map GEdge.target

/-- In-degree of a node (a `DiGraph` has at most one edge per pair). -/
def inDegree (m : Model) (node : String) : ℕ :=
  (inEdges m node).length

/-- One generation step of Kahn's algorithm as in networkx
`topological_generations`: process the current zero-indegree generation,
decrement successors' in-degrees, and collect the next generation. -/
def kahnGeneration (m : Model) (gen : List String)
    (indeg : List (String × ℕ)) : List String × List (String × ℕ) :=
  gen.foldl (fun (acc : List String × List (String × ℕ)) node =>
    (successors m node).foldl (fun (acc : List String × List (String × ℕ)) c =>
      match dictGet? acc.2 c with
      | none => acc
      | some d =>
          if d ≤ 1 then (acc.1 ++ [c], (acc.2.filter (fun p => p.1 ≠ c)))
          else (acc.1, dictSet acc.2 c (d - 1))) acc) ([], indeg)

/-- Kahn's algorithm by generations, with fuel bounding the number of
generations (each nonempty generation removes at least one node). -/
def kahnAux (m : Model) : ℕ → List String → List (String × ℕ) → List String
  | 0, _, _ => []
  | _, [], _ => []
  | fuel + 1, gen, indeg =>
      let next := kahnGeneration m gen indeg
      gen ++ kahnAux m fuel next.1 next.2

/-- `list(nx.topological_sort(model))`: nodes with zero in-degree in
insertion order form the first generation; later generations follow in
the order their in-degrees reach zero.  On a cyclic graph the result
covers only the acyclic part. -/
def topologicalSort (m : Model) : List String :=
  let ids := m.nodes.map Prod.fst
  let zero := ids.filter (fun v => inDegree m v = 0)
  let indeg := (ids.filter (fun v => inDegree m v ≠ 0)).map
    (fun v => (v, inDegree m v))
  kahnAux m (ids.length + 1) zero indeg

/-- The processing order used by `_monte_carlo_step`.  In Python the
`except nx.NetworkXError` clause is meant to fall back to `model.nodes()`
order on a cyclic graph (a cycle actually raises `NetworkXUnfeasible`,
which that clause does not catch); we model the intended fallback, and
every theorem below concerns acyclic inputs, where the branches agree. -/
def sortedNodes (m : Model) : List String :=
  let t := topologicalSort m
  if t.length = m.nodes.length then t else m.nodes.map Prod.fst

/-- A biomarker's trajectory array, stored by column: `traj d` is the
vector of per-trial values at day `d` (shape `(n_simulations,)`).
Allocation gives column 0 the baseline and every other column zero, as
`np.zeros` followed by the column-0 assignment does. -/
def Traj : Type := ℤ → List ℚ

/-- `trajectory[:, day] = v`. -/
def trajSet (t : Traj) (day : ℤ) (v : List ℚ) : Traj :=
  fun d => if d = day then v else t d

/-- Lookup of a biomarker's trajectory, defaulting to an empty array
(the default is never hit on the paths exercised below). -/
def trajGetF (traj : List (String × Traj)) (b : String) : Traj :=
  (dictGet? traj b).getD (fun _ => [])

/-- The value taken for an edge's source once the lag has elapsed: the
source's already-computed same-day value if present, else the source's
own trajectory looked back by the lag (`max(0, int(day - lag_days))`,
Python `int` truncating toward zero), else a neutral `np.ones`. -/
def sourceValueFor (node_values : List (String × List ℚ))
    (traj : List (String × Traj)) (source : String) (day : ℤ)
    (lag_days : ℚ) (n : ℕ) : List ℚ :=
  match dictGet? node_values source with
  | some v => v
  | none =>
      match dictGet? traj source with
      | some tr => tr (max 0 ⌊(day : ℚ) - lag_days⌋)
      | none => List.replicate n 1

/-- One incoming edge's contribution to `total_effect`: zero while
`day < lag_days` (the lag gate is checked before any source lookup),
otherwise `effect_size * source_value`.  The truncation `int(day -
lag_days)` in the source equals the floor here because the difference is
nonnegative whenever it is computed. -/
def edgeContribution (node_values : List (String × List ℚ))
    (traj : List (String × Traj)) (source : String) (effect_size : ℚ)
    (lag_hours : ℤ) (day : ℤ) (n : ℕ) : List ℚ :=
  let lag_days : ℚ := (lag_hours : ℚ) / 24
  if lag_days ≤ (day : ℚ) then
    (sourceValueFor node_values traj source day lag_days n).map
      (fun x => effect_size * x)
  else List.replicate n 0

/-- Elementwise vector sum (`total_effect += ...` on numpy arrays). -/
def vAdd (v w : List ℚ) : List ℚ := List.zipWith (· + ·) v w

/-- Processing of one node inside `_monte_carlo_step`'s loop.  The state
is the `node_values` dict built so far plus the rng. -/
def stepNode (m : Model) (env_changes : List (String × ℚ)) (day : ℤ)
    (traj : List (String × Traj)) (n : ℕ)
    (acc : List (String × List ℚ) × Rng) (node : String) :
    List (String × List ℚ) × Rng :=
  let nv := acc.1
  let rng := acc.2
  let ty := nodeTypeOf m node
  if ty = "environmental" then
    let multiplier := dictGetD env_changes node 1
    let d := normalDraw rng (1 / 20) n
    (dictSet nv node (d.1.map (fun z => multiplier * (1 + z))), d.2)
  else if ty = "molecular" ∨ ty = "biomarker" then
    let incoming := inEdges m node
    if incoming.isEmpty then
      if ty = "biomarker" ∧ dictMem traj node then
        (dictSet nv node (trajGetF traj node (day - 1)), rng)
      else
        (dictSet nv node (List.replicate n 1), rng)
    else
      let total_effect := incoming.foldl (fun te e =>
        vAdd te (edgeContribution nv traj e.source e.attrs.effect_size
          e.attrs.temporal_lag_hours day n)) (List.replicate n 0)
      let d := normalDraw rng (1 / 10) n
      if ty = "biomarker" ∧ dictMem traj node then
        let prev := trajGetF traj node (day - 1)
        (dictSet nv node
          (List.zipWith (fun p tz => p + tz) prev
            (List.zipWith (fun t z => (1 / 50) * t * (1 + z)) total_effect
              d.1)), d.2)
      else
        (dictSet nv node
          (List.zipWith (fun t z => t * (1 + z)) total_effect d.1), d.2)
  else
    -- genetic or untyped nodes match no branch: no value, no draw
    acc

/-- `TemporalModelEngine._monte_carlo_step`: fold the day's node
processing over the topological order (with fallback). -/
def monteCarloStep (m : Model) (env_changes : List (String × ℚ)) (day : ℤ)
    (traj : List (String × Traj)) (n : ℕ) (rng : Rng) :
    List (String × List ℚ) × Rng :=
  (sortedNodes m).foldl (stepNode m env_changes day traj n) ([], rng)

/-- Trajectory allocation in `_run_monte_carlo`: for each biomarker node,
column 0 holds the baseline (default 1.0) and the other columns zero. -/
def initTraj (m : Model) (baseline_biomarkers : List (String × ℚ)) (n : ℕ) :
    List (String × Traj) :=
  (biomarkerNodes m).foldl (fun t b =>
    dictSet t b (fun d =>
      if d = 0 then List.replicate n (dictGetD baseline_biomarkers b 1)
      else List.replicate n 0)) []

/-- `range(1, horizon_days + 1)` over Python ints. -/
def dayRange (horizon_days : ℤ) : List ℤ :=
  (List.range horizon_days.toNat).map (fun (i : ℕ) => (i : ℤ) + 1)

/-- Copy the day's biomarker values into trajectory column `day`. -/
def writeDayValues (m : Model) (day : ℤ)
    (day_values : List (String × List ℚ)) (traj : List (String × Traj)) :
    List (String × Traj) :=
  (biomarkerNodes m).foldl (fun t b =>
    match dictGet? day_values b with
    | some v => dictSet t b (trajSet (trajGetF t b) day v)
    | none => t) traj

/-- `TemporalModelEngine._run_monte_carlo`: allocate, then simulate day by
day, copying each day's biomarker values into the trajectories. -/
def runMonteCarlo (m : Model) (env_changes : List (String × ℚ))
    (baseline_biomarkers : List (String × ℚ)) (horizon_days : ℤ) (n : ℕ)
    (rng : Rng) : List (String × Traj) × Rng :=
  (dayRange horizon_days).foldl (fun acc day =>
    let s := monteCarloStep m env_changes day acc.1 n acc.2
    (writeDayValues m day s.1 acc.1, s.2))
    (initTraj m baseline_biomarkers n, rng)

/-- `np.mean` of a trial vector. -/
def npMean (v : List ℚ) : ℚ := v.sum / v.length

/-- `np.percentile(values, q)` with the default linear interpolation:
sort ascending, take `h = (n-1) * q / 100`, and interpolate between the
neighbouring order statistics. -/
def npPercentile (v : List ℚ) (q : ℚ) : ℚ :=
  let a := v.insertionSort (· ≤ ·)
  let h : ℚ := ((v.length : ℚ) - 1) * q / 100
  let i : ℕ := ⌊h⌋.toNat
  let lo := a.getD i 0
  let hi := a.getD (i + 1) lo
  lo + (h - (⌊h⌋ : ℚ)) * (hi - lo)

/-- Round-half-even to an integer, as Python's `round` ties-to-even
behaviour on the exact decimal value (on binary floats Python's tie cases
are additionally perturbed by representation error; no tie is exercised
below). -/
def roundHalfEven (x : ℚ) : ℤ :=
  if x - ⌊x⌋ = 1 / 2 then (if 2 ∣ ⌊x⌋ then ⌊x⌋ else ⌊x⌋ + 1)
  else round x

/-- Python `round(x, 2)`. -/
def round2 (x : ℚ) : ℚ := (roundHalfEven (x * 100) : ℚ) / 100

/-- One checkpoint record `{day, mean, confidence_interval, risk_level}`. -/
structure TimelinePoint where
  day : ℤ
  mean : ℚ
  confidence_interval : ℚ × ℚ
  risk_level : String
deriving DecidableEq

/-- `PredictionTimeline` (src/models/gateway.py): baseline, checkpoint
records, unit string. -/
structure PredictionTimeline where
  baseline : ℚ
  timeline : List TimelinePoint
  unit : String
deriving DecidableEq

/-- The risk stratification branch of `_create_timeline`: absolute CRP
thresholds, generic fold-change rule otherwise (with the `baseline > 0`
guard).  The classification reads the unrounded cross-trial mean. -/
def riskLevelOf (biomarker : String) (mean baseline : ℚ) : String :=
  if biomarker = "CRP" then
    if mean < 1 then "low" else if mean < 3 then "moderate" else "high"
  else
    let fold_change := if 0 < baseline then mean / baseline else 1
    if fold_change < 3 / 2 then "low"
    else if fold_change < 5 / 2 then "moderate"
    else "high"

/-- The biomarker-to-unit lookup of `_create_timeline`. -/
def unitOf (biomarker : String) : String :=
  if biomarker = "CRP" then "mg/L"
  else if biomarker = "IL6" then "pg/mL" else "units"

/-- The checkpoint days `{0, 30, 60, 90}` clipped to the horizon. -/
def sampleDays (horizon_days : ℤ) : List ℤ :=
  ([0, 30, 60, 90] : List ℤ).filter (fun d => d ≤ horizon_days)

/-- `TemporalModelEngine._create_timeline`: per checkpoint, the rounded
cross-trial mean, the rounded `[2.5, 97.5]` percentile pair, and the risk
level derived from the unrounded mean. -/
def createTimeline (biomarker : String) (trajectory : Traj) (baseline : ℚ)
    (horizon_days : ℤ) : PredictionTimeline :=
  { baseline := baseline
    unit := unitOf biomarker
    timeline := (sampleDays horizon_days).map (fun day =>
      let values := trajectory day
      let mean := npMean values
      let ci_lower := npPercentile values (5 / 2)
      let ci_upper := npPercentile values (195 / 2)
      { day := day
        mean := round2 mean
        confidence_interval := (round2 ci_lower, round2 ci_upper)
        risk_level := riskLevelOf biomarker mean baseline }) }

/-- `TemporalModelEngine.predict`: run the Monte Carlo simulation, then
summarise each biomarker node that has a trajectory, in node order.  The
returned pair carries the engine's advanced rng alongside the
predictions dict. -/
def predict (e : Engine) (m : Model) (env_changes : List (String × ℚ))
    (horizon_days : ℤ) : List (String × PredictionTimeline) × Rng :=
  let baselines := m.baseline_biomarkers
  let r := runMonteCarlo m env_changes baselines horizon_days
    e.n_simulations e.rng
  ((biomarkerNodes m).foldl (fun acc b =>
      match dictGet? r.1 b with
      | some tr =>
          acc ++ [(b, createTimeline b tr (dictGetD baselines b 1)
            horizon_days)]
      | none => acc) [],
    r.2)

/-- `build_model` followed by `predict` on one engine instance. -/
def buildAndPredict (e : Engine) (cg : CausalGraph)
    (user_genetics : List (String × String))
    (baseline_biomarkers : List (String × ℚ))
    (env_changes : List (String × ℚ)) (horizon_days : ℤ) :
    List (String × PredictionTimeline) × Rng :=
  predict e (buildModel cg user_genetics baseline_biomarkers) env_changes
    horizon_days

/-- The day-`d` mean checkpoint of a predictions dict: look the biomarker
up, find the checkpoint with that day, and return its (rounded) mean. -/
def checkpointMean (out : List (String × PredictionTimeline)) (b : String)
    (d : ℤ) : Option ℚ :=
  (dictGet? out b).bind (fun tl =>
    (tl.timeline.find? (fun p => p.day == d)).map TimelinePoint.mean)

/-- Fixture: the two-node chain `E (environmental) → CRP (biomarker)` with
effect size 1 and zero lag. -/
def chainGraph : CausalGraph :=
  ⟨[⟨"E", "environmental", "E", []⟩, ⟨"CRP", "biomarker", "CRP", []⟩],
    [⟨"E", "CRP", "increases", [], 1, 0⟩], []⟩

/-- The chain fixture built with baseline `CRP = 0.7`. -/
def chainModel : Model := buildModel chainGraph [] [("CRP", 7 / 10)]

/-- Claim C1: two engine instances constructed with the same seed and the
same trial count, each running `build_model` followed by `predict` on
identical causal-graph, genetics, baseline, environmental-change and
horizon inputs, produce bit-identical `PredictionTimeline` outputs.  The
embedding exhibits why: an engine's only state is its trial count and its
seed-determined random stream plus counter, and `predict` is a pure
function of that state and its arguments. -/
theorem claim_C1_determinism (n : ℕ) (s : ℕ → ℚ) (e1 e2 : Engine)
    (h1 : e1 = mkEngine n s) (h2 : e2 = mkEngine n s) (cg : CausalGraph)
    (gen : List (String × String)) (base : List (String × ℚ))
    (env : List (String × ℚ)) (horizon : ℤ) :
    (buildAndPredict e1 cg gen base env horizon).1 =
      (buildAndPredict e2 cg gen base env horizon).1 := by
  subst h1; subst h2; rfl

/-- Witness for C1 at a concrete seed/stream, trial count and input. -/
theorem claim_C1_determinism_witness :
    (buildAndPredict (mkEngine 2 (fun _ => 0)) chainGraph [] [("CRP", 7 / 10)]
        [("E", 2)] 3).1 =
      (buildAndPredict (mkEngine 2 (fun _ => 0)) chainGraph []
        [("CRP", 7 / 10)] [("E", 2)] 3).1 :=
  claim_C1_determinism 2 (fun _ => 0) _ _ rfl rfl chainGraph []
    [("CRP", 7 / 10)] [("E", 2)] 3

/-- Counterexample to claim C4: `predict` on an empty causal graph (a
configuration where biomarkers are expected) is not rejected with a
configuration error — the embedding is a total function because the
Python code contains no validation whatsoever — and silently returns the
degenerate empty predictions mapping. -/
theorem claim_C4_counterexample :
    (predict ⟨5, ⟨fun _ => 0, 0⟩⟩ (buildModel ⟨[], [], []⟩ [] []) [] 90).1
      = [] := rfl

/-- Claim C4 as amended: `predict` performs no input validation.  With an
empty graph it silently returns an empty predictions mapping for every
horizon (negative horizons included: the day loop simply runs zero times)
and every environmental input; no configuration error is raised before or
during simulation.  (In Python a negative horizon combined with a
non-empty graph fails only incidentally, inside numpy array allocation or
indexing, which is not a configuration check.) -/
theorem claim_C4_amended (n : ℕ) (s : ℕ → ℚ) (c : ℕ)
    (env : List (String × ℚ)) (horizon : ℤ) :
    (predict ⟨n, ⟨s, c⟩⟩ (buildModel ⟨[], [], []⟩ [] []) env horizon).1
      = [] := by
  simp [predict, buildModel, biomarkerNodes, addNode, dictSet]

/-- Claim C7: the effective effect size of an edge equals the base effect
size multiplied, in encounter order, by the multiplier (default 1.0) of
each genetic-modifier rule whose edge key equals `"source->target"` and
whose gene appears in the user's genetics with exactly the rule's variant
string; with no matching rule the effect size is unchanged (the product
is empty), and unknown genes or variants are silently skipped rather than
raising an error (the embedding is total). -/
theorem claim_C7_genetic_modifier (base_effect : ℚ) (source target : String)
    (gen : List (String × String)) (mods : List GeneticModifier) :
    applyGeneticModifier base_effect source target gen mods =
      base_effect * matchingMultiplierProduct source target gen mods :=
  applyGeneticModifier_eq_mul base_effect source target gen mods

/-- Modelled from claim C3's words (for refutation by comparison): an
edge-contribution rule in which a same-day value for the source takes
precedence unconditionally, the lag gate applying only when no same-day
value exists. -/
def edgeContributionClaimC3 (node_values : List (String × List ℚ))
    (traj : List (String × Traj)) (source : String) (effect_size : ℚ)
    (lag_hours : ℤ) (day : ℤ) (n : ℕ) : List ℚ :=
  let lag_days : ℚ := (lag_hours : ℚ) / 24
  match dictGet? node_values source with
  | some v => v.map (fun x => effect_size * x)
  | none =>
      if lag_days ≤ (day : ℚ) then
        (match dictGet? traj source with
          | some tr => tr (max 0 ⌊(day : ℚ) - lag_days⌋)
          | none => List.replicate n 1).map (fun x => effect_size * x)
      else List.replicate n 0

/-- Modelled from claim C3's words: `stepNode` with the claim's edge
contribution rule in place of the code's. -/
def stepNodeClaimC3 (m : Model) (env_changes : List (String × ℚ)) (day : ℤ)
    (traj : List (String × Traj)) (n : ℕ)
    (acc : List (String × List ℚ) × Rng) (node : String) :
    List (String × List ℚ) × Rng :=
  let nv := acc.1
  let rng := acc.2
  let ty := nodeTypeOf m node
  if ty = "environmental" then
    let multiplier := dictGetD env_changes node 1
    let d := normalDraw rng (1 / 20) n
    (dictSet nv node (d.1.map (fun z => multiplier * (1 + z))), d.2)
  else if ty = "molecular" ∨ ty = "biomarker" then
    let incoming := inEdges m node
    if incoming.isEmpty then
      if ty = "biomarker" ∧ dictMem traj node then
        (dictSet nv node (trajGetF traj node (day - 1)), rng)
      else
        (dictSet nv node (List.replicate n 1), rng)
    else
      let total_effect := incoming.foldl (fun te e =>
        vAdd te (edgeContributionClaimC3 nv traj e.source e.attrs.effect_size
          e.attrs.temporal_lag_hours day n)) (List.replicate n 0)
      let d := normalDraw rng (1 / 10) n
      if ty = "biomarker" ∧ dictMem traj node then
        let prev := trajGetF traj node (day - 1)
        (dictSet nv node
          (List.zipWith (fun p tz => p + tz) prev
            (List.zipWith (fun t z => (1 / 50) * t * (1 + z)) total_effect
              d.1)), d.2)
      else
        (dictSet nv node
          (List.zipWith (fun t z => t * (1 + z)) total_effect d.1), d.2)
  else
    acc

/-- Modelled from claim C3's words: the full single-day step under the
claim's precedence. -/
def monteCarloStepClaimC3 (m : Model) (env_changes : List (String × ℚ))
    (day : ℤ) (traj : List (String × Traj)) (n : ℕ) (rng : Rng) :
    List (String × List ℚ) × Rng :=
  (sortedNodes m).foldl (stepNodeClaimC3 m env_changes day traj n) ([], rng)

/-- Fixture for C3: chain `E → CRP` with a 48-hour lag. -/
def lagChainGraph : CausalGraph :=
  ⟨[⟨"E", "environmental", "E", []⟩, ⟨"CRP", "biomarker", "CRP", []⟩],
    [⟨"E", "CRP", "increases", [], 1, 48⟩], []⟩

/-- The 48-hour-lag chain built with baseline `CRP = 1`. -/
def lagChainModel : Model := buildModel lagChainGraph [] [("CRP", 1)]

/-- Counterexample to claim C3: on day 1 with a 48-hour (2-day) lag edge
`E → CRP`, one trial, zero noise and environmental multiplier 5, the
source `E` is processed earlier the same day (value 5), yet the code's
step leaves `CRP` at `1` — the lag gate suppresses the edge even though a
same-day source value exists — whereas a step implementing the claim's
precedence yields `1 + 0.02·5 = 1.1`. -/
theorem claim_C3_counterexample :
    dictGet? (monteCarloStep lagChainModel [("E", 5)] 1
        (initTraj lagChainModel [("CRP", 1)] 1) 1 ⟨fun _ => 0, 0⟩).1 "CRP"
      = some [1] ∧
    dictGet? (monteCarloStepClaimC3 lagChainModel [("E", 5)] 1
        (initTraj lagChainModel [("CRP", 1)] 1) 1 ⟨fun _ => 0, 0⟩).1 "CRP"
      = some [11 / 10] ∧
    ([1] : List ℚ) ≠ [11 / 10] := by
  refine ⟨by with_unfolding_all decide, by with_unfolding_all decide,
    by with_unfolding_all decide⟩

/-- Claim C3 as amended: the lag gate is applied first and applies to
every edge.  Whenever `day < lag_days` the edge contributes nothing this
day, even when the source already has a same-day value; only once the lag
has elapsed is the source's same-day value used (taking precedence over
the trajectory look-back and the neutral default). -/
theorem claim_C3_amended (node_values : List (String × List ℚ))
    (traj : List (String × Traj)) (source : String) (effect_size : ℚ)
    (lag_hours : ℤ) (day : ℤ) (n : ℕ) (v : List ℚ)
    (hv : dictGet? node_values source = some v) :
    ((day : ℚ) < (lag_hours : ℚ) / 24 →
      edgeContribution node_values traj source effect_size lag_hours day n
        = List.replicate n 0) ∧
    ((lag_hours : ℚ) / 24 ≤ (day : ℚ) →
      edgeContribution node_values traj source effect_size lag_hours day n
        = v.map (fun x => effect_size * x)) := by
  constructor
  · intro h
    simp [edgeContribution, not_le.2 h]
  · intro h
    simp [edgeContribution, h, sourceValueFor, hv]

/-- Witness for the amended C3 at a concrete lagged edge with a same-day
source value present. -/
theorem claim_C3_amended_witness :
    dictGet? [("E", [(5 : ℚ)])] "E" = some [(5 : ℚ)] ∧
    (((1 : ℤ) : ℚ) < ((48 : ℤ) : ℚ) / 24 →
      edgeContribution [("E", [(5 : ℚ)])] [] "E" 1 48 1 1
        = List.replicate 1 0) ∧
    (((48 : ℤ) : ℚ) / 24 ≤ ((1 : ℤ) : ℚ) →
      edgeContribution [("E", [(5 : ℚ)])] [] "E" 1 48 1 1
        = [(5 : ℚ)].map (fun x => 1 * x)) :=
  ⟨by decide, (claim_C3_amended [("E", [(5 : ℚ)])] [] "E" 1 48 1 1
      [(5 : ℚ)] (by decide)).1,
    (claim_C3_amended [("E", [(5 : ℚ)])] [] "E" 1 48 1 1
      [(5 : ℚ)] (by decide)).2⟩

/-- Processing one node either leaves the accumulated `node_values`
untouched or assigns that node's own key and nothing else. -/
theorem stepNode_fst_eq_or (m : Model) (env : List (String × ℚ)) (day : ℤ)
    (traj : List (String × Traj)) (n : ℕ)
    (acc : List (String × List ℚ) × Rng) (node : String) :
    (stepNode m env day traj n acc node).1 = acc.1 ∨
    ∃ w, (stepNode m env day traj n acc node).1 = dictSet acc.1 node w := by
  unfold stepNode
  dsimp only
  split
  · exact Or.inr ⟨_, rfl⟩
  · split
    · split
      · split
        · exact Or.inr ⟨_, rfl⟩
        · exact Or.inr ⟨_, rfl⟩
      · split
        · exact Or.inr ⟨_, rfl⟩
        · exact Or.inr ⟨_, rfl⟩
    · exact Or.inl rfl

/-- Claim C10: genetic-typed nodes are simulation-inert.  In the
single-day step a genetic node is never assigned a per-day value (its
processing leaves both the `node_values` dict and the random stream
untouched, so no noise is drawn for it), and an incoming edge whose
source is such a node — absent from `node_values` and without a
trajectory — contributes exactly `effect_size × 1.0` per trial on every
day where the lag has elapsed. -/
theorem claim_C10_genetic_inert (m : Model) (env : List (String × ℚ))
    (day : ℤ) (traj : List (String × Traj)) (n : ℕ) (rng : Rng) (v : String)
    (hty : nodeTypeOf m v = "genetic") :
    dictGet? (monteCarloStep m env day traj n rng).1 v = none ∧
    (∀ nv rng2, stepNode m env day traj n (nv, rng2) v = (nv, rng2)) ∧
    (∀ (nv : List (String × List ℚ)) (eff : ℚ) (lagH : ℤ),
      dictGet? nv v = none → dictGet? traj v = none →
      (lagH : ℚ) / 24 ≤ (day : ℚ) →
      edgeContribution nv traj v eff lagH day n
        = List.replicate n eff) := by
  have hstep : ∀ nv rng2, stepNode m env day traj n (nv, rng2) v =
      (nv, rng2) := by
    intro nv rng2
    simp [stepNode, hty]
  refine ⟨?_, hstep, ?_⟩
  · have key : ∀ (l : List String) (acc : List (String × List ℚ) × Rng),
        dictGet? acc.1 v = none →
        dictGet? (l.foldl (stepNode m env day traj n) acc).1 v = none := by
      intro l
      induction l with
      | nil => intro acc h; exact h
      | cons u rest ih =>
          intro acc h
          rw [List.foldl_cons]
          apply ih
          by_cases huv : u = v
          · subst huv
            have he : stepNode m env day traj n acc u = acc :=
              hstep acc.1 acc.2
            rw [he]
            exact h
          · rcases stepNode_fst_eq_or m env day traj n acc u with he | ⟨w, he⟩
            · rw [he]; exact h
            · rw [he, dictGet?_dictSet_ne acc.1 u v w (Ne.symm huv)]
              exact h
    exact key (sortedNodes m) ([], rng) rfl
  · intro nv eff lagH hnv htraj hlag
    simp [edgeContribution, hlag, sourceValueFor, hnv, htraj,
      List.map_replicate, mul_one]

/-- Fixture for C10: a genetic node feeding a biomarker. -/
def geneticGraph : CausalGraph :=
  ⟨[⟨"G", "genetic", "G", []⟩, ⟨"CRP", "biomarker", "CRP", []⟩],
    [⟨"G", "CRP", "increases", [], 1, 0⟩], []⟩

/-- The genetic-node fixture built with baseline `CRP = 1`. -/
def geneticModel : Model := buildModel geneticGraph [] [("CRP", 1)]

/-- Witness for C10 on the genetic-node fixture. -/
theorem claim_C10_genetic_inert_witness :
    nodeTypeOf geneticModel "G" = "genetic" ∧
    dictGet? (monteCarloStep geneticModel [] 1
        (initTraj geneticModel [("CRP", 1)] 1) 1 ⟨fun _ => 0, 0⟩).1 "G"
      = none ∧
    edgeContribution [] (initTraj geneticModel [("CRP", 1)] 1) "G" 1 0 1 1
      = List.replicate 1 1 :=
  ⟨by decide,
    (claim_C10_genetic_inert geneticModel [] 1
      (initTraj geneticModel [("CRP", 1)] 1) 1 ⟨fun _ => 0, 0⟩ "G"
      (by decide)).1,
    (claim_C10_genetic_inert geneticModel [] 1
      (initTraj geneticModel [("CRP", 1)] 1) 1 ⟨fun _ => 0, 0⟩ "G"
      (by decide)).2.2 [] 1 0 rfl rfl (by norm_num)⟩

/-- Modelled from claim C9's words: the risk classification rule — CRP
has absolute thresholds (`mean < 1.0 → low`, `< 3.0 → moderate`, else
`high`); every other biomarker uses fold change `mean / baseline` when
`baseline > 0` (else `1.0`) with thresholds 1.5 and 2.5. -/
def riskLevelClaim (biomarker : String) (mean baseline : ℚ) : String :=
  if biomarker = "CRP" then
    if mean < 1 then "low" else if mean < 3 then "moderate" else "high"
  else
    let fold := if baseline > 0 then mean / baseline else 1
    if fold < 3 / 2 then "low"
    else if fold < 5 / 2 then "moderate"
    else "high"

/-- Claim C9: every checkpoint of a timeline produced by
`_create_timeline` carries the risk level given by the claim's
classification rule, applied to the unrounded cross-trial mean of that
checkpoint's day and the biomarker's baseline. -/
theorem claim_C9_risk_classification (biomarker : String) (tr : Traj)
    (baseline : ℚ) (horizon_days : ℤ) (p : TimelinePoint)
    (hp : p ∈ (createTimeline biomarker tr baseline horizon_days).timeline) :
    p.risk_level = riskLevelClaim biomarker (npMean (tr p.day)) baseline := by
  simp only [createTimeline, List.mem_map] at hp
  rcases hp with ⟨d, _, rfl⟩
  rfl

/-- Witness for C9 at a concrete one-trial timeline. -/
theorem claim_C9_risk_classification_witness :
    (⟨0, 7 / 10, (7 / 10, 7 / 10), "low"⟩ : TimelinePoint) ∈
      (createTimeline "CRP" (fun d => if d = 0 then [7 / 10] else [2])
        (7 / 10) 0).timeline ∧
    (⟨0, 7 / 10, (7 / 10, 7 / 10), "low"⟩ : TimelinePoint).risk_level =
      riskLevelClaim "CRP"
        (npMean ((fun d => if d = 0 then [(7 : ℚ) / 10] else [2])
          ((⟨0, 7 / 10, (7 / 10, 7 / 10), "low"⟩ : TimelinePoint).day)))
        (7 / 10) :=
  ⟨by with_unfolding_all decide,
    claim_C9_risk_classification "CRP"
      (fun d => if d = 0 then [7 / 10] else [2]) (7 / 10) 0
      ⟨0, 7 / 10, (7 / 10, 7 / 10), "low"⟩ (by with_unfolding_all decide)⟩

/-- Lookup of the stored edge for an ordered pair in the built graph. -/
def lookupEdge (es : List GEdge) (s t : String) : Option EdgeAttrs :=
  match es with
  | [] => none
  | e :: rest =>
      if e.source = s ∧ e.target = t then some e.attrs
      else lookupEdge rest s t

/-- The last input edge carrying a given `(source, target)` pair. -/
def lastMatchingEdge (edges : List CausalEdge) (s t : String) :
    Option CausalEdge :=
  match edges with
  | [] => none
  | e :: rest =>
      match lastMatchingEdge rest s t with
      | some e' => some e'
      | none => if e.source = s ∧ e.target = t then some e else none

/-- The edge attributes `build_model` stores for an input edge. -/
def modifiedAttrs (cg : CausalGraph) (gen : List (String × String))
    (e : CausalEdge) : EdgeAttrs :=
  ⟨applyGeneticModifier e.effect_size e.source e.target gen
      cg.genetic_modifiers,
    e.temporal_lag_hours, e.relationship, e.evidence⟩

theorem lookupEdge_setEdge_self (es : List GEdge) (s t : String)
    (a : EdgeAttrs) : lookupEdge (setEdge es s t a) s t = some a := by
  induction es with
  | nil => simp [setEdge, lookupEdge]
  | cons e rest ih =>
      by_cases hm : e.source = s ∧ e.target = t
      · simp [setEdge, hm, lookupEdge]
      · simp [setEdge, hm, lookupEdge, ih]

theorem lookupEdge_setEdge_ne (es : List GEdge) (s t s' t' : String)
    (a : EdgeAttrs) (h : ¬(s = s' ∧ t = t')) :
    lookupEdge (setEdge es s t a) s' t' = lookupEdge es s' t' := by
  induction es with
  | nil => simp [setEdge, lookupEdge, h]
  | cons e rest ih =>
      by_cases hm : e.source = s ∧ e.target = t
      · have h2 : ¬(e.source = s' ∧ e.target = t') := by
          rcases hm with ⟨h1, h2⟩
          rw [h1, h2]
          exact h
        simp [setEdge, hm, lookupEdge, h, h2]
      · simp [setEdge, hm, lookupEdge, ih]

theorem addEdge_edges (m : Model) (s t : String) (a : EdgeAttrs) :
    (addEdge m s t a).edges = setEdge m.edges s t a := by
  unfold addEdge
  dsimp only
  split <;> split <;> rfl

theorem lookupEdge_foldl_addEdge (F : CausalEdge → EdgeAttrs)
    (L : List CausalEdge) (g : Model) (s t : String) :
    lookupEdge
        ((L.foldl (fun g e => addEdge g e.source e.target (F e)) g).edges)
        s t =
      match lastMatchingEdge L s t with
      | some e' => some (F e')
      | none => lookupEdge g.edges s t := by
  induction L generalizing g with
  | nil => rfl
  | cons e rest ih =>
      rw [List.foldl_cons, ih]
      rcases hrest : lastMatchingEdge rest s t with _ | e''
      · by_cases hm : e.source = s ∧ e.target = t
        · simp only [lastMatchingEdge, hrest, hm, if_true]
          rw [addEdge_edges]
          rcases hm with ⟨h1, h2⟩
          rw [← h1, ← h2]
          exact lookupEdge_setEdge_self g.edges e.source e.target (F e)
        · simp only [lastMatchingEdge, hrest, hm, if_false]
          rw [addEdge_edges]
          refine lookupEdge_setEdge_ne g.edges e.source e.target s t (F e) ?_
          intro hc
          exact hm ⟨hc.1.symm ▸ rfl, hc.2.symm ▸ rfl⟩
      · simp only [lastMatchingEdge, hrest]

theorem foldl_addNode_edges (N : List CausalNode) (g : Model) :
    (N.foldl (fun g n => addNode g n.id ⟨n.type, n.label, n.grounding⟩)
      g).edges = g.edges := by
  induction N generalizing g with
  | nil => rfl
  | cons nd rest ih => rw [List.foldl_cons, ih]; rfl

theorem lastMatchingEdge_isSome (L : List CausalEdge) (e : CausalEdge)
    (he : e ∈ L) : (lastMatchingEdge L e.source e.target).isSome := by
  induction L with
  | nil => cases he
  | cons u rest ih =>
      rcases List.mem_cons.1 he with rfl | hmem
      · rcases hrest : lastMatchingEdge rest e.source e.target with _ | e''
        · simp [lastMatchingEdge, hrest]
        · simp [lastMatchingEdge, hrest]
      · have := ih hmem
        rcases hrest : lastMatchingEdge rest e.source e.target with _ | e''
        · rw [hrest] at this
          cases this
        · simp [lastMatchingEdge, hrest]

/-- Fixture for C6: two input edges sharing the pair `(s, t)`. -/
def dupEdgeGraph : CausalGraph :=
  ⟨[⟨"s", "molecular", "s", []⟩, ⟨"t", "biomarker", "t", []⟩],
    [⟨"s", "t", "activates", [], 3 / 10, 6⟩,
      ⟨"s", "t", "inhibits", [], 1 / 2, 12⟩], []⟩

/-- Counterexample to claim C6: when two input edges share the same
`(source, target)` pair, `build_model` (backed by `nx.DiGraph`, which
holds at most one edge per ordered pair) keeps only one stored edge, and
the first edge's data — effect size 0.3, relationship `activates`, lag 6
— is silently lost. -/
theorem claim_C6_counterexample :
    (buildModel dupEdgeGraph [] []).edges.length = 1 ∧
    ¬(∃ e ∈ (buildModel dupEdgeGraph [] []).edges,
        e.attrs.effect_size = 3 / 10) := by
  constructor
  · with_unfolding_all decide
  · with_unfolding_all decide

/-- Claim C6 as amended: for every edge of the input causal graph, the
built graph stores an edge for its `(source, target)` pair, carrying the
genetics-modified effect size, original relationship tag, temporal lag
and evidence of the LAST input edge with that pair.  Edges with distinct
pairs are all preserved; input edges sharing a pair are collapsed to the
final occurrence (the earlier ones are silently overwritten). -/
theorem claim_C6_amended (cg : CausalGraph) (gen : List (String × String))
    (base : List (String × ℚ)) (e : CausalEdge) (he : e ∈ cg.edges) :
    (lastMatchingEdge cg.edges e.source e.target).isSome ∧
    lookupEdge (buildModel cg gen base).edges e.source e.target =
      (lastMatchingEdge cg.edges e.source e.target).map
        (modifiedAttrs cg gen) := by
  refine ⟨lastMatchingEdge_isSome cg.edges e he, ?_⟩
  show lookupEdge
      ((cg.edges.foldl (fun g ed => addEdge g ed.source ed.target
        (modifiedAttrs cg gen ed)) _).edges) e.source e.target = _
  rw [lookupEdge_foldl_addEdge (modifiedAttrs cg gen) cg.edges _
    e.source e.target]
  rcases hrest : lastMatchingEdge cg.edges e.source e.target with _ | e''
  · rw [foldl_addNode_edges]
    rfl
  · rfl

/-- Witness for the amended C6 on the duplicate-pair fixture. -/
theorem claim_C6_amended_witness :
    (⟨"s", "t", "activates", [], 3 / 10, 6⟩ : CausalEdge) ∈
      dupEdgeGraph.edges ∧
    ((lastMatchingEdge dupEdgeGraph.edges "s" "t").isSome ∧
      lookupEdge (buildModel dupEdgeGraph [] []).edges "s" "t" =
        (lastMatchingEdge dupEdgeGraph.edges "s" "t").map
          (modifiedAttrs dupEdgeGraph [])) :=
  ⟨by with_unfolding_all decide,
    claim_C6_amended dupEdgeGraph [] []
      ⟨"s", "t", "activates", [], 3 / 10, 6⟩
      (by with_unfolding_all decide)⟩

theorem dictGet?_foldl_set_not_mem {α : Type} (f : String → α)
    (l : List String) (init : List (String × α)) (b : String) (hb : b ∉ l) :
    dictGet? (l.foldl (fun t k => dictSet t k (f k)) init) b
      = dictGet? init b := by
  induction l generalizing init with
  | nil => rfl
  | cons k rest ih =>
      have hbr : b ∉ rest := fun h => hb (List.mem_cons_of_mem k h)
      have hbk : b ≠ k := fun h => hb (h ▸ List.mem_cons_self k rest)
      rw [List.foldl_cons, ih _ hbr, dictGet?_dictSet_ne init k b (f k) hbk]

theorem dictGet?_foldl_set_mem {α : Type} (f : String → α)
    (l : List String) (init : List (String × α)) (b : String) (hb : b ∈ l) :
    dictGet? (l.foldl (fun t k => dictSet t k (f k)) init) b
      = some (f b) := by
  induction l generalizing init with
  | nil => cases hb
  | cons k rest ih =>
      rw [List.foldl_cons]
      by_cases hbr : b ∈ rest
      · exact ih _ hbr
      · have hbk : b = k := by
          rcases List.mem_cons.1 hb with h | h
          · exact h
          · exact absurd h hbr
        subst hbk
        rw [dictGet?_foldl_set_not_mem f rest _ b hbr,
          dictGet?_dictSet_self]

/-- The invariant tracked through the simulation for claim C2: the
biomarker has a trajectory whose column 0 is `X`. -/
def Col0Is (traj : List (String × Traj)) (b : String) (X : List ℚ) : Prop :=
  ∃ tr, dictGet? traj b = some tr ∧ tr 0 = X

theorem initTraj_col0 (m : Model) (baselines : List (String × ℚ)) (n : ℕ)
    (b : String) (hb : b ∈ biomarkerNodes m) :
    Col0Is (initTraj m baselines n) b
      (List.replicate n (dictGetD baselines b 1)) := by
  show ∃ tr, _ ∧ _
  exact ⟨_, dictGet?_foldl_set_mem
    (fun b' => fun d => if d = 0 then
      List.replicate n (dictGetD baselines b' 1) else List.replicate n 0)
    (biomarkerNodes m) [] b hb, rfl⟩

theorem writeDayValues_col0 (m : Model) (day : ℤ)
    (dv : List (String × List ℚ)) (traj : List (String × Traj)) (b : String)
    (X : List ℚ) (hday : day ≠ 0) (h : Col0Is traj b X) :
    Col0Is (writeDayValues m day dv traj) b X := by
  unfold writeDayValues
  have key : ∀ (l : List String) (t : List (String × Traj)), Col0Is t b X →
      Col0Is (l.foldl (fun t b' =>
        match dictGet? dv b' with
        | some v => dictSet t b' (trajSet (trajGetF t b') day v)
        | none => t) t) b X := by
    intro l
    induction l with
    | nil => intro t ht; exact ht
    | cons u rest ih =>
        intro t ht
        rw [List.foldl_cons]
        apply ih
        rcases hdv : dictGet? dv u with _ | v
        · simpa [hdv] using ht
        · rcases ht with ⟨tr, htr, h0⟩
          by_cases hub : u = b
          · subst hub
            refine ⟨trajSet (trajGetF t u) day v, ?_, ?_⟩
            · simp [hdv, dictGet?_dictSet_self]
            · have : trajGetF t u = tr := by
                unfold trajGetF
                rw [htr]
                rfl
              rw [this]
              unfold trajSet
              rw [if_neg (fun he => hday he.symm)]
              exact h0
          · refine ⟨tr, ?_, h0⟩
            simp only [hdv]
            rw [dictGet?_dictSet_ne t u b _ (fun he => hub he.symm)]
            exact htr
  exact key (biomarkerNodes m) traj h

/-- After the full Monte Carlo run, every biomarker node still has a
trajectory whose column 0 is its baseline replicated across trials: the
column is initialised that way and every loop day writes only columns
`day ≥ 1`. -/
theorem runMonteCarlo_col0 (m : Model) (env : List (String × ℚ))
    (baselines : List (String × ℚ)) (horizon_days : ℤ) (n : ℕ) (rng : Rng)
    (b : String) (hb : b ∈ biomarkerNodes m) :
    Col0Is (runMonteCarlo m env baselines horizon_days n rng).1 b
      (List.replicate n (dictGetD baselines b 1)) := by
  have hdays : ∀ d ∈ dayRange horizon_days, d ≠ 0 := by
    intro d hd
    unfold dayRange at hd
    rcases List.mem_map.1 hd with ⟨i, _, he⟩
    have he2 : (i : ℤ) + 1 = d := he
    omega
  have key : ∀ (ds : List ℤ) (acc : List (String × Traj) × Rng),
      (∀ d ∈ ds, d ≠ 0) →
      Col0Is acc.1 b (List.replicate n (dictGetD baselines b 1)) →
      Col0Is ((ds.foldl (fun acc day =>
        let s := monteCarloStep m env day acc.1 n acc.2
        (writeDayValues m day s.1 acc.1, s.2)) acc)).1 b
        (List.replicate n (dictGetD baselines b 1)) := by
    intro ds
    induction ds with
    | nil => intro acc _ h; exact h
    | cons d rest ih =>
        intro acc hds h
        rw [List.foldl_cons]
        exact ih _ (fun x hx => hds x (List.mem_cons_of_mem d hx))
          (writeDayValues_col0 m d _ acc.1 b _
            (hds d (List.mem_cons_self d rest)) h)
  exact key (dayRange horizon_days) _ hdays
    (initTraj_col0 m baselines n b hb)

/-- Claim C2: for every biomarker-typed node, every trial and every
environmental-change input, the trajectory produced by the full Monte
Carlo run has column 0 equal to that biomarker's baseline (default 1.0
if absent from the baseline mapping), replicated across all trials — the
column is initialised to the baseline and no later simulation day
overwrites it, since every day of the loop writes only columns `day ≥ 1`. -/
theorem claim_C2_baseline (m : Model) (env : List (String × ℚ))
    (baselines : List (String × ℚ)) (horizon_days : ℤ) (n : ℕ) (rng : Rng)
    (b : String) (hb : b ∈ biomarkerNodes m) :
    ∃ tr, dictGet? (runMonteCarlo m env baselines horizon_days n rng).1 b
        = some tr ∧
      tr 0 = List.replicate n (dictGetD baselines b 1) :=
  runMonteCarlo_col0 m env baselines horizon_days n rng b hb

/-- Witness for C2 on the chain fixture with two trials. -/
theorem claim_C2_baseline_witness :
    "CRP" ∈ biomarkerNodes chainModel ∧
    ∃ tr, dictGet?
        (runMonteCarlo chainModel [("E", 2)] [("CRP", 7 / 10)] 3 2
          ⟨fun _ => 0, 0⟩).1 "CRP" = some tr ∧
      tr 0 = List.replicate 2 (dictGetD [("CRP", 7 / 10)] "CRP" 1) :=
  ⟨by decide,
    claim_C2_baseline chainModel [("E", 2)] [("CRP", 7 / 10)] 3 2
      ⟨fun _ => 0, 0⟩ "CRP" (by decide)⟩

/-- Adversarial but model-admissible noise stream for C5: on day 1 the
first env draw is extreme (trial 0), every other env draw kills the
environmental value (`1 + 0.05·(−20) = 0`), and biomarker draws are 0.
With 41 trials the day-30 values are `{0} ∪ {0.7}⁴⁰`, whose mean 28/41 ≈
0.68 lies strictly below the 2.5th percentile 0.7. -/
def sC5 : ℕ → ℚ :=
  fun i => if i = 0 then -720 else if i % 82 < 41 then -20 else 0

set_option maxRecDepth 10000

/-- Counterexample to claim C5: a `predict` run (41 trials, horizon 30,
the noise stream `sC5`) returns a checkpoint whose rounded mean (0.68)
lies strictly below the rounded lower confidence bound (0.70): with
fewer than 2.5 percent of the trials pulled far downward, the mean can
leave the `[2.5, 97.5]` percentile interval. -/
theorem claim_C5_counterexample :
    ¬ (∀ q ∈ (predict ⟨41, ⟨sC5, 0⟩⟩ chainModel [] 30).1,
        ∀ p ∈ q.2.timeline,
          p.confidence_interval.1 ≤ p.mean ∧
            p.mean ≤ p.confidence_interval.2) := by
  with_unfolding_all decide

theorem npMean_replicate (n : ℕ) (c : ℚ) (hn : 1 ≤ n) :
    npMean (List.replicate n c) = c := by
  have hne : ((n : ℚ)) ≠ 0 := by
    have : (0 : ℚ) < (n : ℚ) := by exact_mod_cast hn
    exact ne_of_gt this
  simp only [npMean, List.sum_replicate, nsmul_eq_mul,
    List.length_replicate]
  field_simp

theorem getD_of_all_eq (a : List ℚ) (c : ℚ) (i : ℕ) (d : ℚ)
    (hall : ∀ x ∈ a, x = c) (hi : i < a.length) : a.getD i d = c := by
  induction a generalizing i with
  | nil => cases hi
  | cons x xs ih =>
      cases i with
      | zero => simpa using hall x (List.mem_cons_self x xs)
      | succ j =>
          rw [List.getD_cons_succ]
          exact ih j (fun y hy => hall y (List.mem_cons_of_mem x hy))
            (Nat.lt_of_succ_lt_succ hi)

theorem npPercentile_replicate (n : ℕ) (c : ℚ) (q : ℚ) (hn : 1 ≤ n)
    (hq0 : 0 ≤ q) (hq1 : q ≤ 100) :
    npPercentile (List.replicate n c) q = c := by
  have hperm : List.Perm ((List.replicate n c).insertionSort (· ≤ ·))
      (List.replicate n c) := List.perm_insertionSort _ _
  have hlen : ((List.replicate n c).insertionSort (· ≤ ·)).length = n := by
    rw [hperm.length_eq, List.length_replicate]
  have hall : ∀ x ∈ (List.replicate n c).insertionSort (· ≤ ·), x = c := by
    intro x hx
    exact List.eq_of_mem_replicate (hperm.mem_iff.1 hx)
  have hn1 : (1 : ℚ) ≤ (n : ℚ) := by exact_mod_cast hn
  have hh0 : 0 ≤ ((List.replicate n c).length - 1 : ℚ) * q / 100 := by
    rw [List.length_replicate]
    have : (0 : ℚ) ≤ (n : ℚ) - 1 := by linarith
    positivity
  have hhle : ((List.replicate n c).length - 1 : ℚ) * q / 100
      ≤ (n : ℚ) - 1 := by
    rw [List.length_replicate]
    rcases eq_or_lt_of_le hn1 with h1 | h1
    · have hz : (n : ℚ) - 1 = 0 := by linarith
      rw [hz, zero_mul, zero_div]
    · have hpos : (0 : ℚ) < (n : ℚ) - 1 := by linarith
      rw [div_le_iff₀ (by norm_num : (0:ℚ) < 100)]
      nlinarith
  set h : ℚ := ((List.replicate n c).length - 1 : ℚ) * q / 100 with hh
  have hfl0 : 0 ≤ ⌊h⌋ := Int.le_floor.2 (by exact_mod_cast hh0)
  have hfl : ⌊h⌋ ≤ (n : ℤ) - 1 := by
    have : ⌊h⌋ ≤ ⌊(n : ℚ) - 1⌋ := Int.floor_le_floor hhle
    simpa using this
  have hi : ⌊h⌋.toNat < n := by omega
  unfold npPercentile
  dsimp only
  rw [← hh]
  have hlo : ((List.replicate n c).insertionSort (· ≤ ·)).getD ⌊h⌋.toNat 0
      = c := getD_of_all_eq _ c _ 0 hall (by rw [hlen]; exact hi)
  rw [hlo]
  have hhi : ((List.replicate n c).insertionSort (· ≤ ·)).getD
      (⌊h⌋.toNat + 1) c = c := by
    rcases Nat.lt_or_ge (⌊h⌋.toNat + 1) n with h2 | h2
    · exact getD_of_all_eq _ c _ c hall (by rw [hlen]; exact h2)
    · rw [List.getD_eq_default]
      rw [hlen]
      exact h2
  rw [hhi]
  ring

/-- Membership in the predictions dict produced by `predict`: the entry
was built by `_create_timeline` from that biomarker's trajectory. -/
theorem predict_mem (e : Engine) (m : Model) (env : List (String × ℚ))
    (h : ℤ) (b : String) (tl : PredictionTimeline)
    (htl : (b, tl) ∈ (predict e m env h).1) :
    b ∈ biomarkerNodes m ∧
    ∃ tr, dictGet? (runMonteCarlo m env m.baseline_biomarkers h
          e.n_simulations e.rng).1 b = some tr ∧
      tl = createTimeline b tr (dictGetD m.baseline_biomarkers b 1) h := by
  have key : ∀ (l : List String) (acc : List (String × PredictionTimeline)),
      (b, tl) ∈ l.foldl (fun acc b' =>
        match dictGet? (runMonteCarlo m env m.baseline_biomarkers h
            e.n_simulations e.rng).1 b' with
        | some tr =>
            acc ++ [(b', createTimeline b' tr
              (dictGetD m.baseline_biomarkers b' 1) h)]
        | none => acc) acc →
      (b, tl) ∈ acc ∨
        (b ∈ l ∧ ∃ tr,
          dictGet? (runMonteCarlo m env m.baseline_biomarkers h
            e.n_simulations e.rng).1 b = some tr ∧
          tl = createTimeline b tr (dictGetD m.baseline_biomarkers b 1) h) := by
    intro l
    induction l with
    | nil => intro acc hmem; exact Or.inl hmem
    | cons u rest ih =>
        intro acc hmem
        rw [List.foldl_cons] at hmem
        rcases ih _ hmem with hacc | ⟨hmem2, hex⟩
        · rcases hdv : dictGet? (runMonteCarlo m env m.baseline_biomarkers h
              e.n_simulations e.rng).1 u with _ | tr
          · rw [hdv] at hacc
            exact Or.inl hacc
          · rw [hdv] at hacc
            rcases List.mem_append.1 hacc with hacc2 | hsing
            · exact Or.inl hacc2
            · rcases List.mem_singleton.1 hsing with heq
              have hb : b = u := congrArg Prod.fst heq
              subst hb
              have htl2 : tl = createTimeline b tr
                  (dictGetD m.baseline_biomarkers b 1) h :=
                congrArg Prod.snd heq
              exact Or.inr ⟨List.mem_cons_self b rest, tr, hdv, htl2⟩
        · exact Or.inr ⟨List.mem_cons_of_mem u hmem2, hex⟩
  rcases key (biomarkerNodes m) [] htl with hacc | ⟨hmem, hex⟩
  · cases hacc
  · exact ⟨hmem, hex⟩

/-- Claim C5 as amended: the mean and confidence interval of every
checkpoint are the (rounded) arithmetic mean and `[2.5, 97.5]` percentile
pair across trials, and at the day-0 checkpoint — where all trials hold
the baseline — containment `ci[0] ≤ mean ≤ ci[1]` always holds (given at
least one trial).  At later checkpoints containment can fail for
sufficiently skewed trial distributions (see the counterexample), so it
is a typical-case property, not an invariant of the code. -/
theorem claim_C5_amended (e : Engine) (m : Model) (env : List (String × ℚ))
    (h : ℤ) (b : String) (tl : PredictionTimeline) (p : TimelinePoint)
    (hn : 1 ≤ e.n_simulations) (htl : (b, tl) ∈ (predict e m env h).1)
    (hp : p ∈ tl.timeline) (hd : p.day = 0) :
    p.confidence_interval.1 ≤ p.mean ∧ p.mean ≤ p.confidence_interval.2 := by
  rcases predict_mem e m env h b tl htl with ⟨hb, tr, htr, rfl⟩
  rcases runMonteCarlo_col0 m env m.baseline_biomarkers h e.n_simulations
    e.rng b hb with ⟨tr2, htr2, h0⟩
  rw [htr] at htr2
  have htreq : tr = tr2 := Option.some.inj htr2
  subst htreq
  simp only [createTimeline, List.mem_map] at hp
  rcases hp with ⟨d, _, rfl⟩
  simp only at hd
  subst hd
  rw [h0]
  rw [npMean_replicate e.n_simulations _ hn,
    npPercentile_replicate e.n_simulations _ (5 / 2) hn (by norm_num)
      (by norm_num),
    npPercentile_replicate e.n_simulations _ (195 / 2) hn (by norm_num)
      (by norm_num)]
  exact ⟨le_refl _, le_refl _⟩

/-- Witness for the amended C5: a one-trial chain run at horizon 0,
whose only checkpoint is day 0. -/
theorem claim_C5_amended_witness :
    1 ≤ (1 : ℕ) ∧
    (("CRP", (⟨7 / 10, [⟨0, 7 / 10, (7 / 10, 7 / 10), "low"⟩], "mg/L"⟩ :
        PredictionTimeline)) ∈
      (predict ⟨1, ⟨fun _ => 0, 0⟩⟩ chainModel [] 0).1) ∧
    ((⟨0, 7 / 10, (7 / 10, 7 / 10), "low"⟩ : TimelinePoint) ∈
      (⟨7 / 10, [⟨0, 7 / 10, (7 / 10, 7 / 10), "low"⟩], "mg/L"⟩ :
        PredictionTimeline).timeline) ∧
    ((7 : ℚ) / 10, (7 : ℚ) / 10).1 ≤ 7 / 10 ∧ (7 : ℚ) / 10 ≤
      ((7 : ℚ) / 10, (7 : ℚ) / 10).2 :=
  ⟨le_refl 1, by with_unfolding_all decide, by with_unfolding_all decide,
    claim_C5_amended ⟨1, ⟨fun _ => 0, 0⟩⟩ chainModel [] 0 "CRP"
      ⟨7 / 10, [⟨0, 7 / 10, (7 / 10, 7 / 10), "low"⟩], "mg/L"⟩
      ⟨0, 7 / 10, (7 / 10, 7 / 10), "low"⟩ (le_refl 1)
      (by with_unfolding_all decide) (by with_unfolding_all decide) rfl⟩

/-- Adversarial but model-admissible noise stream for C8: every
environmental draw (even indices, one trial) is −30, so the environmental
value is `mult · (1 + 0.05·(−30)) = −mult/2` and raising the multiplier
lowers every downstream biomarker increment. -/
def sC8 : ℕ → ℚ := fun i => if i % 2 = 0 then -30 else 0

/-- Counterexample to claim C8: on the chain `E → CRP` (so `E` causally
precedes the biomarker), same seed/stream `sC8`, one trial, horizon 90,
all else equal, raising the environmental multiplier of `E` from 1 to 2
LOWERS the day-90 mean from −0.2 to −1.1: a noise draw below −20 makes
`1 + noise` negative and flips the sign of the environmental value. -/
theorem claim_C8_counterexample :
    checkpointMean (predict ⟨1, ⟨sC8, 0⟩⟩ chainModel [("E", 1)] 90).1
        "CRP" 90 = some (-1 / 5) ∧
    checkpointMean (predict ⟨1, ⟨sC8, 0⟩⟩ chainModel [("E", 2)] 90).1
        "CRP" 90 = some (-11 / 10) ∧
    ¬ ((-1 / 5 : ℚ) ≤ -11 / 10) := by
  refine ⟨by with_unfolding_all decide, by with_unfolding_all decide,
    by norm_num⟩

/-- Pointwise order on trial vectors. -/
def VLe (v w : List ℚ) : Prop := List.Forall₂ (· ≤ ·) v w

theorem VLe_refl (v : List ℚ) : VLe v v := by
  induction v with
  | nil => exact List.Forall₂.nil
  | cons x xs ih => exact List.Forall₂.cons (le_refl x) ih

theorem VLe_replicate (n : ℕ) (a b : ℚ) (h : a ≤ b) :
    VLe (List.replicate n a) (List.replicate n b) := by
  induction n with
  | zero => exact List.Forall₂.nil
  | succ k ih => exact List.Forall₂.cons h ih

/-- Monotone elementwise combination against a fixed second list. -/
theorem VLe_zipWith_of (f : ℚ → ℚ → ℚ) (v1 v2 zs : List ℚ)
    (hv : VLe v1 v2) (hz : ∀ z ∈ zs, ∀ a b, a ≤ b → f a z ≤ f b z) :
    VLe (List.zipWith f v1 zs) (List.zipWith f v2 zs) := by
  induction hv generalizing zs with
  | nil => exact List.Forall₂.nil
  | cons hab h ih =>
      cases zs with
      | nil => exact List.Forall₂.nil
      | cons z zrest =>
          exact List.Forall₂.cons
            (hz z (List.mem_cons_self z zrest) _ _ hab)
            (ih zrest (fun y hy => hz y (List.mem_cons_of_mem z hy)))

/-- Monotone elementwise combination in both arguments. -/
theorem VLe_zipWith_both (f : ℚ → ℚ → ℚ)
    (hf : ∀ a b c d, a ≤ b → c ≤ d → f a c ≤ f b d)
    (v1 v2 w1 w2 : List ℚ) (hv : VLe v1 v2) (hw : VLe w1 w2) :
    VLe (List.zipWith f v1 w1) (List.zipWith f v2 w2) := by
  induction hv generalizing w1 w2 with
  | nil => exact List.Forall₂.nil
  | cons hab h ih =>
      cases hw with
      | nil => exact List.Forall₂.nil
      | cons hcd h2 => exact List.Forall₂.cons (hf _ _ _ _ hab hcd) (ih _ _ h2)

theorem VLe_vAdd (v1 v2 w1 w2 : List ℚ) (hv : VLe v1 v2) (hw : VLe w1 w2) :
    VLe (vAdd v1 w1) (vAdd v2 w2) :=
  VLe_zipWith_both (· + ·) (fun _ _ _ _ h1 h2 => add_le_add h1 h2)
    v1 v2 w1 w2 hv hw

theorem VLe_map_scale (c : ℚ) (hc : 0 ≤ c) (v w : List ℚ) (h : VLe v w) :
    VLe (v.map (fun x => c * x)) (w.map (fun x => c * x)) := by
  induction h with
  | nil => exact List.Forall₂.nil
  | cons hab h2 ih =>
      exact List.Forall₂.cons (mul_le_mul_of_nonneg_left hab hc) ih

theorem VLe_sum (v w : List ℚ) (h : VLe v w) : v.sum ≤ w.sum := by
  induction h with
  | nil => exact le_refl 0
  | cons hab h2 ih =>
      rw [List.sum_cons, List.sum_cons]
      exact add_le_add hab ih

theorem VLe_length_eq (v w : List ℚ) (h : VLe v w) : v.length = w.length :=
  List.Forall₂.length_eq h

theorem npMean_mono (v w : List ℚ) (h : VLe v w) : npMean v ≤ npMean w := by
  unfold npMean
  rw [VLe_length_eq v w h]
  rcases Nat.eq_zero_or_pos w.length with hz | hpos
  · rw [hz]
    simp
  · have : (0 : ℚ) < (w.length : ℚ) := by exact_mod_cast hpos
    exact (div_le_div_iff_of_pos_right this).2 (VLe_sum v w h)

theorem roundHalfEven_le_floor_add_one (x : ℚ) :
    roundHalfEven x ≤ ⌊x⌋ + 1 := by
  unfold roundHalfEven
  split
  · split
    · omega
    · omega
  · rw [round_eq]
    have h1 : x + 1 / 2 < (⌊x⌋ : ℚ) + 2 := by
      have := Int.lt_floor_add_one x
      linarith
    have h2 : ⌊x + 1 / 2⌋ < ⌊x⌋ + 2 := by
      rw [Int.floor_lt]
      push_cast
      linarith
    omega

theorem floor_le_roundHalfEven (x : ℚ) : ⌊x⌋ ≤ roundHalfEven x := by
  unfold roundHalfEven
  split
  · split
    · omega
    · omega
  · rw [round_eq]
    have h1 : (⌊x⌋ : ℚ) ≤ x + 1 / 2 := by
      have := Int.floor_le x
      linarith
    exact Int.le_floor.2 h1

theorem roundHalfEven_mono (x y : ℚ) (hxy : x ≤ y) :
    roundHalfEven x ≤ roundHalfEven y := by
  rcases lt_or_eq_of_le (Int.floor_le_floor hxy) with hf | hf
  · calc roundHalfEven x ≤ ⌊x⌋ + 1 := roundHalfEven_le_floor_add_one x
      _ ≤ ⌊y⌋ := by omega
      _ ≤ roundHalfEven y := floor_le_roundHalfEven y
  · have hfq : ((⌊x⌋ : ℚ)) = (⌊y⌋ : ℚ) := by exact_mod_cast hf
    by_cases htx : x - ⌊x⌋ = 1 / 2
    · by_cases hty : y - ⌊y⌋ = 1 / 2
      · have hexy : x = y := by linarith
        rw [hexy]
      · -- x is a tie, y is not: x < y, so round y ≥ ⌊x⌋ + 1 ≥ rhe x
        have hygt : (⌊y⌋ : ℚ) + 1 / 2 < y := by
          rcases lt_or_eq_of_le hxy with hlt | heq
          · linarith
          · exfalso
            apply hty
            rw [← heq]
            linarith
        have hry : ⌊x⌋ + 1 ≤ roundHalfEven y := by
          unfold roundHalfEven
          rw [if_neg hty, round_eq]
          refine Int.le_floor.2 ?_
          push_cast
          linarith
        have hrx : roundHalfEven x ≤ ⌊x⌋ + 1 :=
          roundHalfEven_le_floor_add_one x
        omega
    · by_cases hty : y - ⌊y⌋ = 1 / 2
      · -- y is a tie, x is not: x < y = ⌊y⌋ + 1/2, so round x ≤ ⌊y⌋ ≤ rhe y
        have hxlt : x < (⌊x⌋ : ℚ) + 1 / 2 := by
          rcases lt_or_eq_of_le hxy with hlt | heq
          · linarith
          · exfalso
            apply htx
            rw [heq]
            linarith
        have hrx : roundHalfEven x ≤ ⌊x⌋ := by
          unfold roundHalfEven
          rw [if_neg htx, round_eq]
          have hlt2 : ⌊x + 1 / 2⌋ < ⌊x⌋ + 1 := by
            rw [Int.floor_lt]
            push_cast
            linarith
          omega
        have hry : ⌊y⌋ ≤ roundHalfEven y := floor_le_roundHalfEven y
        omega
      · -- neither is a tie: round is monotone
        unfold roundHalfEven
        rw [if_neg htx, if_neg hty, round_eq, round_eq]
        exact Int.floor_le_floor (by linarith)

theorem round2_mono (x y : ℚ) (h : x ≤ y) : round2 x ≤ round2 y := by
  unfold round2
  have h1 : roundHalfEven (x * 100) ≤ roundHalfEven (y * 100) :=
    roundHalfEven_mono (x * 100) (y * 100) (by linarith)
  have h2 : ((roundHalfEven (x * 100) : ℚ)) ≤ (roundHalfEven (y * 100) : ℚ) :=
    by exact_mod_cast h1
  linarith

/-- Two association lists with identical keys in identical order and
pointwise `R`-related values. -/
def PairRel {α : Type} (R : α → α → Prop) (m1 m2 : List (String × α)) :
    Prop :=
  List.Forall₂ (fun a b => a.1 = b.1 ∧ R a.2 b.2) m1 m2

theorem PairRel_refl {α : Type} (R : α → α → Prop) (hR : ∀ a, R a a)
    (m : List (String × α)) : PairRel R m m := by
  induction m with
  | nil => exact List.Forall₂.nil
  | cons p rest ih => exact List.Forall₂.cons ⟨rfl, hR p.2⟩ ih

theorem PairRel_dictGet? {α : Type} (R : α → α → Prop)
    (m1 m2 : List (String × α)) (h : PairRel R m1 m2) (k : String) :
    (dictGet? m1 k = none ∧ dictGet? m2 k = none) ∨
    ∃ v1 v2, dictGet? m1 k = some v1 ∧ dictGet? m2 k = some v2 ∧ R v1 v2 := by
  induction h with
  | nil => exact Or.inl ⟨rfl, rfl⟩
  | @cons a b l1 l2 hab htail ih =>
      rcases hab with ⟨hk, hR⟩
      rcases a with ⟨k1, v1⟩
      rcases b with ⟨k2, v2⟩
      simp only at hk
      subst hk
      by_cases hkk : k1 = k
      · exact Or.inr ⟨v1, v2, by simp [dictGet?, hkk], by simp [dictGet?, hkk],
          hR⟩
      · simpa [dictGet?, hkk] using ih

theorem PairRel_dictMem {α : Type} (R : α → α → Prop)
    (m1 m2 : List (String × α)) (h : PairRel R m1 m2) (k : String) :
    dictMem m1 k = dictMem m2 k := by
  rcases PairRel_dictGet? R m1 m2 h k with ⟨h1, h2⟩ | ⟨v1, v2, h1, h2, _⟩
  · rw [dictMem, dictMem, h1, h2]
  · rw [dictMem, dictMem, h1, h2]
    rfl

theorem PairRel_dictSet {α : Type} (R : α → α → Prop)
    (m1 m2 : List (String × α)) (h : PairRel R m1 m2) (k : String)
    (v1 v2 : α) (hv : R v1 v2) :
    PairRel R (dictSet m1 k v1) (dictSet m2 k v2) := by
  induction h with
  | nil => exact List.Forall₂.cons ⟨rfl, hv⟩ List.Forall₂.nil
  | @cons a b l1 l2 hab htail ih =>
      rcases hab with ⟨hk, hR⟩
      rcases a with ⟨k1, w1⟩
      rcases b with ⟨k2, w2⟩
      simp only at hk
      subst hk
      by_cases hkk : k1 = k
      · simp only [dictSet, hkk, if_pos rfl]
        exact List.Forall₂.cons ⟨rfl, hv⟩ htail
      · simp only [dictSet, hkk, if_false]
        exact List.Forall₂.cons ⟨rfl, hR⟩ ih

/-- The value relation for trajectories: pointwise `VLe` at every column. -/
def TrajLe (f g : Traj) : Prop := ∀ d, VLe (f d) (g d)

theorem trajGetF_rel (t1 t2 : List (String × Traj)) (b : String)
    (ht : PairRel TrajLe t1 t2) (d : ℤ) :
    VLe (trajGetF t1 b d) (trajGetF t2 b d) := by
  rcases PairRel_dictGet? TrajLe t1 t2 ht b with ⟨h1, h2⟩ | ⟨f1, f2, h1, h2, hR⟩
  · unfold trajGetF
    rw [h1, h2]
    exact VLe_refl _
  · unfold trajGetF
    rw [h1, h2]
    exact hR d

theorem sourceValueFor_rel (nv1 nv2 : List (String × List ℚ))
    (t1 t2 : List (String × Traj)) (source : String) (day : ℤ) (lag : ℚ)
    (n : ℕ) (hnv : PairRel VLe nv1 nv2) (ht : PairRel TrajLe t1 t2) :
    VLe (sourceValueFor nv1 t1 source day lag n)
      (sourceValueFor nv2 t2 source day lag n) := by
  unfold sourceValueFor
  rcases PairRel_dictGet? VLe nv1 nv2 hnv source with ⟨h1, h2⟩ |
    ⟨v1, v2, h1, h2, hR⟩
  · rw [h1, h2]
    rcases PairRel_dictGet? TrajLe t1 t2 ht source with ⟨g1, g2⟩ |
      ⟨f1, f2, g1, g2, hRT⟩
    · rw [g1, g2]
      exact VLe_refl _
    · rw [g1, g2]
      exact hRT _
  · rw [h1, h2]
    exact hR

theorem edgeContribution_rel (nv1 nv2 : List (String × List ℚ))
    (t1 t2 : List (String × Traj)) (source : String) (eff : ℚ)
    (lagH : ℤ) (day : ℤ) (n : ℕ) (heff : 0 ≤ eff)
    (hnv : PairRel VLe nv1 nv2) (ht : PairRel TrajLe t1 t2) :
    VLe (edgeContribution nv1 t1 source eff lagH day n)
      (edgeContribution nv2 t2 source eff lagH day n) := by
  unfold edgeContribution
  dsimp only
  split
  · exact VLe_map_scale eff heff _ _
      (sourceValueFor_rel nv1 nv2 t1 t2 source day _ n hnv ht)
  · exact VLe_refl _

theorem totalEffect_rel (edges : List GEdge)
    (nv1 nv2 : List (String × List ℚ)) (t1 t2 : List (String × Traj))
    (day : ℤ) (n : ℕ) (init1 init2 : List ℚ)
    (hedges : ∀ e ∈ edges, 0 ≤ e.attrs.effect_size)
    (hnv : PairRel VLe nv1 nv2) (ht : PairRel TrajLe t1 t2)
    (hinit : VLe init1 init2) :
    VLe (edges.foldl (fun te e => vAdd te (edgeContribution nv1 t1 e.source
        e.attrs.effect_size e.attrs.temporal_lag_hours day n)) init1)
      (edges.foldl (fun te e => vAdd te (edgeContribution nv2 t2 e.source
        e.attrs.effect_size e.attrs.temporal_lag_hours day n)) init2) := by
  induction edges generalizing init1 init2 with
  | nil => exact hinit
  | cons e rest ih =>
      rw [List.foldl_cons, List.foldl_cons]
      exact ih _ _ (fun x hx => hedges x (List.mem_cons_of_mem e hx))
        (VLe_vAdd _ _ _ _ hinit
          (edgeContribution_rel nv1 nv2 t1 t2 e.source _ _ day n
            (hedges e (List.mem_cons_self e rest)) hnv ht))

theorem noise_one_add_nonneg (rng : Rng) (sigma : ℚ) (n : ℕ)
    (hs : ∀ i, -10 ≤ rng.stream i) (hs0 : 0 ≤ sigma)
    (hs1 : sigma ≤ 1 / 10) :
    ∀ z ∈ (normalDraw rng sigma n).1, 0 ≤ 1 + z := by
  intro z hz
  unfold normalDraw at hz
  rcases List.mem_map.1 hz with ⟨i, _, rfl⟩
  have h1 : sigma * (-10) ≤ sigma * rng.stream (rng.counter + i) :=
    mul_le_mul_of_nonneg_left (hs (rng.counter + i)) hs0
  nlinarith

theorem VLe_map_env (zs : List ℚ) (a b : ℚ) (hab : a ≤ b)
    (hz : ∀ z ∈ zs, 0 ≤ 1 + z) :
    VLe (zs.map (fun z => a * (1 + z))) (zs.map (fun z => b * (1 + z))) := by
  induction zs with
  | nil => exact List.Forall₂.nil
  | cons z zrest ih =>
      exact List.Forall₂.cons
        (mul_le_mul_of_nonneg_right hab (hz z (List.mem_cons_self z zrest)))
        (ih (fun y hy => hz y (List.mem_cons_of_mem z hy)))

theorem stepNode_stream (m : Model) (env : List (String × ℚ)) (day : ℤ)
    (traj : List (String × Traj)) (n : ℕ)
    (acc : List (String × List ℚ) × Rng) (node : String) :
    (stepNode m env day traj n acc node).2.stream = acc.2.stream := by
  unfold stepNode
  dsimp only
  split
  · rfl
  · split
    · split
      · split
        · rfl
        · rfl
      · split
        · rfl
        · rfl
    · rfl

/-- Monotonicity of one node's processing: with the same graph, rng and
day, nonnegative effect sizes, all noise draws `≥ −10`, pointwise-larger
environmental multipliers, and related accumulated values/trajectories,
the produced per-day values only grow, and both sides consume the random
stream identically. -/
theorem stepNode_rel (m : Model) (env1 env2 : List (String × ℚ)) (day : ℤ)
    (t1 t2 : List (String × Traj)) (n : ℕ)
    (nv1 nv2 : List (String × List ℚ)) (rng : Rng) (node : String)
    (Heff : ∀ e ∈ m.edges, 0 ≤ e.attrs.effect_size)
    (Hs : ∀ i, -10 ≤ rng.stream i)
    (Henv : ∀ k, dictGetD env1 k 1 ≤ dictGetD env2 k 1)
    (hnv : PairRel VLe nv1 nv2) (ht : PairRel TrajLe t1 t2) :
    PairRel VLe (stepNode m env1 day t1 n (nv1, rng) node).1
      (stepNode m env2 day t2 n (nv2, rng) node).1 ∧
    (stepNode m env1 day t1 n (nv1, rng) node).2
      = (stepNode m env2 day t2 n (nv2, rng) node).2 := by
  have hmem : dictMem t1 node = dictMem t2 node :=
    PairRel_dictMem TrajLe t1 t2 ht node
  unfold stepNode
  dsimp only
  by_cases h1 : nodeTypeOf m node = "environmental"
  · simp only [if_pos h1]
    refine ⟨?_, trivial⟩
    exact PairRel_dictSet VLe nv1 nv2 hnv node _ _
      (VLe_map_env _ _ _ (Henv node)
        (noise_one_add_nonneg rng (1 / 20) n Hs (by norm_num) (by norm_num)))
  · simp only [if_neg h1]
    by_cases h2 : nodeTypeOf m node = "molecular" ∨
        nodeTypeOf m node = "biomarker"
    · simp only [if_pos h2]
      by_cases h3 : (inEdges m node).isEmpty = true
      · simp only [if_pos h3]
        by_cases h4 : nodeTypeOf m node = "biomarker" ∧
            dictMem t1 node = true
        · have h4b : nodeTypeOf m node = "biomarker" ∧
              dictMem t2 node = true := ⟨h4.1, hmem ▸ h4.2⟩
          rw [if_pos h4, if_pos h4b]
          exact ⟨PairRel_dictSet VLe nv1 nv2 hnv node _ _
            (trajGetF_rel t1 t2 node ht (day - 1)), rfl⟩
        · have h4b : ¬(nodeTypeOf m node = "biomarker" ∧
              dictMem t2 node = true) :=
            fun hc => h4 ⟨hc.1, hmem.symm ▸ hc.2⟩
          rw [if_neg h4, if_neg h4b]
          exact ⟨PairRel_dictSet VLe nv1 nv2 hnv node _ _ (VLe_refl _), rfl⟩
      · simp only [if_neg h3]
        have hedges : ∀ e ∈ inEdges m node, 0 ≤ e.attrs.effect_size :=
          fun e he => Heff e (List.mem_filter.1 he).1
        have htot : VLe
            ((inEdges m node).foldl (fun te e => vAdd te
              (edgeContribution nv1 t1 e.source e.attrs.effect_size
                e.attrs.temporal_lag_hours day n)) (List.replicate n 0))
            ((inEdges m node).foldl (fun te e => vAdd te
              (edgeContribution nv2 t2 e.source e.attrs.effect_size
                e.attrs.temporal_lag_hours day n)) (List.replicate n 0)) :=
          totalEffect_rel (inEdges m node) nv1 nv2 t1 t2 day n _ _ hedges
            hnv ht (VLe_refl _)
        have hz : ∀ z ∈ (normalDraw rng (1 / 10) n).1, 0 ≤ 1 + z :=
          noise_one_add_nonneg rng (1 / 10) n Hs (by norm_num) (by norm_num)
        by_cases h4 : nodeTypeOf m node = "biomarker" ∧
            dictMem t1 node = true
        · have h4b : nodeTypeOf m node = "biomarker" ∧
              dictMem t2 node = true := ⟨h4.1, hmem ▸ h4.2⟩
          rw [if_pos h4, if_pos h4b]
          refine ⟨?_, rfl⟩
          refine PairRel_dictSet VLe nv1 nv2 hnv node _ _ ?_
          refine VLe_zipWith_both (fun p tz => p + tz)
            (fun _ _ _ _ ha hb => add_le_add ha hb) _ _ _ _
            (trajGetF_rel t1 t2 node ht (day - 1)) ?_
          refine VLe_zipWith_of (fun t z => (1 / 50) * t * (1 + z)) _ _ _
            htot ?_
          intro z hzm a b hab
          nlinarith [hz z hzm, mul_le_mul_of_nonneg_right hab (hz z hzm)]
        · have h4b : ¬(nodeTypeOf m node = "biomarker" ∧
              dictMem t2 node = true) :=
            fun hc => h4 ⟨hc.1, hmem.symm ▸ hc.2⟩
          rw [if_neg h4, if_neg h4b]
          refine ⟨?_, rfl⟩
          refine PairRel_dictSet VLe nv1 nv2 hnv node _ _ ?_
          refine VLe_zipWith_of (fun t z => t * (1 + z)) _ _ _ htot ?_
          intro z hzm a b hab
          exact mul_le_mul_of_nonneg_right hab (hz z hzm)
    · simp only [if_neg h2]
      exact ⟨hnv, trivial⟩

theorem foldNodes_rel (m : Model) (env1 env2 : List (String × ℚ))
    (day : ℤ) (t1 t2 : List (String × Traj)) (n : ℕ)
    (Heff : ∀ e ∈ m.edges, 0 ≤ e.attrs.effect_size)
    (Henv : ∀ k, dictGetD env1 k 1 ≤ dictGetD env2 k 1)
    (ht : PairRel TrajLe t1 t2) (l : List String) :
    ∀ (nv1 nv2 : List (String × List ℚ)) (rng : Rng),
    (∀ i, -10 ≤ rng.stream i) → PairRel VLe nv1 nv2 →
    PairRel VLe ((l.foldl (stepNode m env1 day t1 n) (nv1, rng)).1)
        ((l.foldl (stepNode m env2 day t2 n) (nv2, rng)).1) ∧
    (l.foldl (stepNode m env1 day t1 n) (nv1, rng)).2
        = (l.foldl (stepNode m env2 day t2 n) (nv2, rng)).2 ∧
    (l.foldl (stepNode m env1 day t1 n) (nv1, rng)).2.stream
        = rng.stream := by
  induction l with
  | nil =>
      intro nv1 nv2 rng hs hnv
      exact ⟨hnv, rfl, rfl⟩
  | cons u rest ih =>
      intro nv1 nv2 rng hs hnv
      rw [List.foldl_cons, List.foldl_cons]
      obtain ⟨hrel, hrng⟩ := stepNode_rel m env1 env2 day t1 t2 n nv1 nv2
        rng u Heff hs Henv hnv ht
      set s1 := stepNode m env1 day t1 n (nv1, rng) u with hs1
      set s2 := stepNode m env2 day t2 n (nv2, rng) u with hs2
      have hstream : s1.2.stream = rng.stream :=
        stepNode_stream m env1 day t1 n (nv1, rng) u
      have hsnext : ∀ i, -10 ≤ s1.2.stream i := by
        rw [hstream]
        exact hs
      have e2 : s2 = (s2.1, s1.2) := by rw [hrng]
      rw [e2]
      obtain ⟨h1, h2, h3⟩ := ih s1.1 s2.1 s1.2 hsnext hrel
      exact ⟨h1, h2, h3.trans hstream⟩

theorem monteCarloStep_rel (m : Model) (env1 env2 : List (String × ℚ))
    (day : ℤ) (t1 t2 : List (String × Traj)) (n : ℕ) (rng : Rng)
    (Heff : ∀ e ∈ m.edges, 0 ≤ e.attrs.effect_size)
    (Hs : ∀ i, -10 ≤ rng.stream i)
    (Henv : ∀ k, dictGetD env1 k 1 ≤ dictGetD env2 k 1)
    (ht : PairRel TrajLe t1 t2) :
    PairRel VLe (monteCarloStep m env1 day t1 n rng).1
        (monteCarloStep m env2 day t2 n rng).1 ∧
    (monteCarloStep m env1 day t1 n rng).2
        = (monteCarloStep m env2 day t2 n rng).2 ∧
    (monteCarloStep m env1 day t1 n rng).2.stream = rng.stream :=
  foldNodes_rel m env1 env2 day t1 t2 n Heff Henv ht (sortedNodes m)
    [] [] rng Hs List.Forall₂.nil

theorem writeDayValues_rel (m : Model) (day : ℤ)
    (dv1 dv2 : List (String × List ℚ)) (t1 t2 : List (String × Traj))
    (hdv : PairRel VLe dv1 dv2) (ht : PairRel TrajLe t1 t2) :
    PairRel TrajLe (writeDayValues m day dv1 t1)
      (writeDayValues m day dv2 t2) := by
  unfold writeDayValues
  have key : ∀ (l : List String) (u1 u2 : List (String × Traj)),
      PairRel TrajLe u1 u2 →
      PairRel TrajLe
        (l.foldl (fun t b =>
          match dictGet? dv1 b with
          | some v => dictSet t b (trajSet (trajGetF t b) day v)
          | none => t) u1)
        (l.foldl (fun t b =>
          match dictGet? dv2 b with
          | some v => dictSet t b (trajSet (trajGetF t b) day v)
          | none => t) u2) := by
    intro l
    induction l with
    | nil => intro u1 u2 hu; exact hu
    | cons b rest ih =>
        intro u1 u2 hu
        rw [List.foldl_cons, List.foldl_cons]
        apply ih
        rcases PairRel_dictGet? VLe dv1 dv2 hdv b with ⟨h1, h2⟩ |
          ⟨v1, v2, h1, h2, hv⟩
        · rw [h1, h2]
          exact hu
        · rw [h1, h2]
          refine PairRel_dictSet TrajLe u1 u2 hu b _ _ ?_
          intro d
          unfold trajSet
          by_cases hd : d = day
          · rw [if_pos hd, if_pos hd]
            exact hv
          · rw [if_neg hd, if_neg hd]
            exact trajGetF_rel u1 u2 b hu d
  exact key (biomarkerNodes m) t1 t2 ht

theorem runMonteCarlo_rel (m : Model) (env1 env2 : List (String × ℚ))
    (baselines : List (String × ℚ)) (horizon_days : ℤ) (n : ℕ) (rng : Rng)
    (Heff : ∀ e ∈ m.edges, 0 ≤ e.attrs.effect_size)
    (Hs : ∀ i, -10 ≤ rng.stream i)
    (Henv : ∀ k, dictGetD env1 k 1 ≤ dictGetD env2 k 1) :
    PairRel TrajLe (runMonteCarlo m env1 baselines horizon_days n rng).1
      (runMonteCarlo m env2 baselines horizon_days n rng).1 := by
  unfold runMonteCarlo
  have key : ∀ (ds : List ℤ) (acc1 acc2 : List (String × Traj) × Rng),
      PairRel TrajLe acc1.1 acc2.1 → acc1.2 = acc2.2 →
      (∀ i, -10 ≤ acc1.2.stream i) →
      PairRel TrajLe
        ((ds.foldl (fun acc day =>
          let s := monteCarloStep m env1 day acc.1 n acc.2
          (writeDayValues m day s.1 acc.1, s.2)) acc1).1)
        ((ds.foldl (fun acc day =>
          let s := monteCarloStep m env2 day acc.1 n acc.2
          (writeDayValues m day s.1 acc.1, s.2)) acc2).1) := by
    intro ds
    induction ds with
    | nil => intro acc1 acc2 h1 _ _; exact h1
    | cons d rest ih =>
        intro acc1 acc2 h1 h2 h3
        rw [List.foldl_cons, List.foldl_cons]
        dsimp only
        rw [← h2]
        obtain ⟨hdv, hrng, hstream⟩ := monteCarloStep_rel m env1 env2 d
          acc1.1 acc2.1 n acc1.2 Heff h3 Henv h1
        refine ih _ _ ?_ ?_ ?_
        · dsimp only
          exact writeDayValues_rel m d _ _ acc1.1 acc2.1 hdv h1
        · dsimp only
          exact hrng
        · dsimp only
          rw [hstream]
          exact h3
  exact key (dayRange horizon_days) _ _
    (PairRel_refl TrajLe (fun f d => VLe_refl (f d)) _) rfl Hs

/-- Checkpoint order: same day, mean not larger. -/
def TPLe (p q : TimelinePoint) : Prop := p.day = q.day ∧ p.mean ≤ q.mean

/-- Timeline order: checkpoints pairwise `TPLe`. -/
def TimelineLe (tl1 tl2 : PredictionTimeline) : Prop :=
  List.Forall₂ TPLe tl1.timeline tl2.timeline

theorem forall₂_map_same {α β : Type} (R : β → β → Prop) (l : List α)
    (f g : α → β) (h : ∀ x ∈ l, R (f x) (g x)) :
    List.Forall₂ R (l.map f) (l.map g) := by
  induction l with
  | nil => exact List.Forall₂.nil
  | cons x rest ih =>
      exact List.Forall₂.cons (h x (List.mem_cons_self x rest))
        (ih (fun y hy => h y (List.mem_cons_of_mem x hy)))

theorem createTimeline_rel (b : String) (tr1 tr2 : Traj) (base : ℚ)
    (horizon_days : ℤ) (htr : TrajLe tr1 tr2) :
    TimelineLe (createTimeline b tr1 base horizon_days)
      (createTimeline b tr2 base horizon_days) := by
  unfold TimelineLe createTimeline
  dsimp only
  refine forall₂_map_same TPLe (sampleDays horizon_days) _ _ ?_
  intro d _
  exact ⟨rfl, round2_mono _ _ (npMean_mono _ _ (htr d))⟩

theorem PairRel_append_single {α : Type} (R : α → α → Prop)
    (a1 a2 : List (String × α)) (x y : String × α)
    (h : PairRel R a1 a2) (hk : x.1 = y.1) (hv : R x.2 y.2) :
    PairRel R (a1 ++ [x]) (a2 ++ [y]) := by
  induction h with
  | nil => exact List.Forall₂.cons ⟨hk, hv⟩ List.Forall₂.nil
  | cons hab htail ih => exact List.Forall₂.cons hab ih

theorem predict_out_rel (e : Engine) (m : Model)
    (env1 env2 : List (String × ℚ)) (horizon_days : ℤ)
    (Heff : ∀ ge ∈ m.edges, 0 ≤ ge.attrs.effect_size)
    (Hs : ∀ i, -10 ≤ e.rng.stream i)
    (Henv : ∀ k, dictGetD env1 k 1 ≤ dictGetD env2 k 1) :
    PairRel TimelineLe (predict e m env1 horizon_days).1
      (predict e m env2 horizon_days).1 := by
  unfold predict
  dsimp only
  have hrun := runMonteCarlo_rel m env1 env2 m.baseline_biomarkers
    horizon_days e.n_simulations e.rng Heff Hs Henv
  have key : ∀ (l : List String)
      (acc1 acc2 : List (String × PredictionTimeline)),
      PairRel TimelineLe acc1 acc2 →
      PairRel TimelineLe
        (l.foldl (fun acc b =>
          match dictGet? (runMonteCarlo m env1 m.baseline_biomarkers
              horizon_days e.n_simulations e.rng).1 b with
          | some tr => acc ++ [(b, createTimeline b tr
              (dictGetD m.baseline_biomarkers b 1) horizon_days)]
          | none => acc) acc1)
        (l.foldl (fun acc b =>
          match dictGet? (runMonteCarlo m env2 m.baseline_biomarkers
              horizon_days e.n_simulations e.rng).1 b with
          | some tr => acc ++ [(b, createTimeline b tr
              (dictGetD m.baseline_biomarkers b 1) horizon_days)]
          | none => acc) acc2) := by
    intro l
    induction l with
    | nil => intro acc1 acc2 hacc; exact hacc
    | cons b rest ih =>
        intro acc1 acc2 hacc
        rw [List.foldl_cons, List.foldl_cons]
        apply ih
        rcases PairRel_dictGet? TrajLe _ _ hrun b with ⟨h1, h2⟩ |
          ⟨tr1, tr2, h1, h2, htr⟩
        · rw [h1, h2]
          exact hacc
        · rw [h1, h2]
          exact PairRel_append_single TimelineLe acc1 acc2 _ _ hacc rfl
            (createTimeline_rel b tr1 tr2 _ horizon_days htr)
  exact key (biomarkerNodes m) [] [] List.Forall₂.nil

theorem find?_day_rel (tl1 tl2 : List TimelinePoint) (d : ℤ)
    (h : List.Forall₂ TPLe tl1 tl2) :
    (tl1.find? (fun p => p.day == d) = none ∧
      tl2.find? (fun p => p.day == d) = none) ∨
    ∃ p q, tl1.find? (fun p => p.day == d) = some p ∧
      tl2.find? (fun p => p.day == d) = some q ∧ p.mean ≤ q.mean := by
  induction h with
  | nil => exact Or.inl ⟨rfl, rfl⟩
  | @cons a b l1 l2 hab htail ih =>
      rcases hab with ⟨hd, hm⟩
      by_cases hc : (b.day == d) = true
      · have hca : (a.day == d) = true := by
          rw [hd]
          exact hc
        exact Or.inr ⟨a, b, List.find?_cons_of_pos l1 hca,
          List.find?_cons_of_pos l2 hc, hm⟩
      · have hca : ¬((a.day == d) = true) := by
          rw [hd]
          exact hc
        rw [List.find?_cons_of_neg l1 hca, List.find?_cons_of_neg l2 hc]
        exact ih

theorem checkpointMean_rel (out1 out2 : List (String × PredictionTimeline))
    (hout : PairRel TimelineLe out1 out2) (b : String) (d : ℤ) (v1 v2 : ℚ)
    (h1 : checkpointMean out1 b d = some v1)
    (h2 : checkpointMean out2 b d = some v2) : v1 ≤ v2 := by
  unfold checkpointMean at h1 h2
  rcases PairRel_dictGet? TimelineLe out1 out2 hout b with ⟨g1, g2⟩ |
    ⟨tl1, tl2, g1, g2, hrel⟩
  · rw [g1] at h1
    cases h1
  · rw [g1] at h1
    rw [g2] at h2
    simp only [Option.some_bind] at h1 h2
    rcases find?_day_rel tl1.timeline tl2.timeline d hrel with ⟨f1, f2⟩ |
      ⟨p, q, f1, f2, hm⟩
    · rw [f1] at h1
      cases h1
    · rw [f1] at h1
      rw [f2] at h2
      have e1 : p.mean = v1 := by simpa using h1
      have e2 : q.mean = v2 := by simpa using h2
      rw [← e1, ← e2]
      exact hm

/-- Claim C8 as amended: monotonic sensitivity holds under the two
hypotheses the counterexample forces — every effect size in the built
model is nonnegative, and every noise draw of the shared stream is at
least −10 standard units (so every `1 + sigma·draw` factor is
nonnegative; real `N(0, 0.05..0.1)` draws violate this only with
astronomically small probability).  Then, holding the seed (stream),
graph, baselines, horizon and all other environmental multipliers fixed,
raising any environmental multipliers pointwise does not decrease any
biomarker's mean at any checkpoint — in particular not the day-90 mean. -/
theorem claim_C8_amended (e : Engine) (m : Model)
    (env1 env2 : List (String × ℚ)) (horizon_days : ℤ) (b : String)
    (d : ℤ) (v1 v2 : ℚ)
    (Heff : ∀ ge ∈ m.edges, 0 ≤ ge.attrs.effect_size)
    (Hs : ∀ i, -10 ≤ e.rng.stream i)
    (Henv : ∀ k, dictGetD env1 k 1 ≤ dictGetD env2 k 1)
    (h1 : checkpointMean (predict e m env1 horizon_days).1 b d = some v1)
    (h2 : checkpointMean (predict e m env2 horizon_days).1 b d = some v2) :
    v1 ≤ v2 :=
  checkpointMean_rel (predict e m env1 horizon_days).1
    (predict e m env2 horizon_days).1
    (predict_out_rel e m env1 env2 horizon_days Heff Hs Henv) b d v1 v2 h1 h2

/-- Witness for the amended C8 on the chain fixture: multiplier 1 versus
2 for `E`, zero noise, one trial, horizon 90; day-90 means 2.5 and 4.3. -/
theorem claim_C8_amended_witness :
    checkpointMean (predict ⟨1, ⟨fun _ => 0, 0⟩⟩ chainModel [("E", 1)]
        90).1 "CRP" 90 = some (5 / 2) ∧
    checkpointMean (predict ⟨1, ⟨fun _ => 0, 0⟩⟩ chainModel [("E", 2)]
        90).1 "CRP" 90 = some (43 / 10) ∧
    (5 / 2 : ℚ) ≤ 43 / 10 :=
  ⟨by with_unfolding_all decide, by with_unfolding_all decide,
    claim_C8_amended ⟨1, ⟨fun _ => 0, 0⟩⟩ chainModel [("E", 1)] [("E", 2)]
      90 "CRP" 90 (5 / 2) (43 / 10)
      (by with_unfolding_all decide)
      (fun i => by norm_num)
      (by
        intro k
        unfold dictGetD dictGet?
        by_cases hk : "E" = k
        · rw [if_pos hk, if_pos hk]
          norm_num
        · rw [if_neg hk, if_neg hk])
      (by with_unfolding_all decide) (by with_unfolding_all decide)⟩

end Aeon
